import Mathlib

/-!
Loader splash window: the animation state machine and the drag handling.

A shallow embedding of `loadinganim.cpp` (class `LoginWindow`, `WndProc`, and
the part of `WinMain` that initialises the window object), with theorems about
its timer-driven animation and its drag handling.

Arithmetic.  The C++ code computes with `float`.  The program is embedded once,
generically over a small interface `FloatArith` (the operators and conversions
the source uses), and the interface is instantiated twice:

* `F32`: IEEE-754 binary32, every operation rounded to nearest, ties to even
  (the semantics of `float` on the Windows targets of this program, where each
  `float` operation is one SSE instruction).  A finite value is an integer
  count of units `2^(-149)`, so every operation is exact integer arithmetic
  followed by one rounding.
* `ℚ`: exact arithmetic, for the statements that are explicitly about exact
  arithmetic.

The outside world.  Everything the code reads from outside is an explicit input
of the embedded function: the readings of `steady_clock::now()` (in
nanoseconds), the text width returned by `MeasureString`, the `lParam` of a
mouse message, the window rectangle.  Everything it does to the outside is
returned as a list of `Effect`s and applied to a `Host` record (window position,
running timers, posted close requests, repaints).  A mouse message carries the
cursor position relative to the window's corner, as Win32 sends it, and the
32-bit integer arithmetic of the drag handling wraps.  `FadeInEffect` reads the
clock up to twice in one call (once inside `UpdateImageMovement`, once itself);
a tick therefore carries two readings, and the theorems hold for all readings.
-/

namespace Loader

/-! ## The `float` interface -/

/-- The operations on `float` used by the source: `+ - * /`, the comparisons
`<` and `>=`, `fabs`, the conversions from integers and to `int`, and
decimal literals (`lit n d` is the literal whose decimal value is `n / d`). -/
class FloatArith (F : Type) where
  add : F → F → F
  sub : F → F → F
  mul : F → F → F
  div : F → F → F
  lt : F → F → Bool
  ge : F → F → Bool
  fabs : F → F
  ofInt : Int → F
  toInt : F → Int
  lit : Nat → Nat → F

/-! ### Exact arithmetic -/

/-- Truncation toward zero of a rational, the exact counterpart of
`static_cast<int>`. -/
def truncQ (q : ℚ) : Int := if 0 ≤ q then ⌊q⌋ else ⌈q⌉

instance instFloatArithRat : FloatArith ℚ where
  add a b := a + b
  sub a b := a - b
  mul a b := a * b
  div a b := a / b
  lt a b := decide (a < b)
  ge a b := decide (b ≤ a)
  fabs a := |a|
  ofInt i := (i : ℚ)
  toInt := truncQ
  lit n d := (n : ℚ) / (d : ℚ)

/-! ### IEEE-754 binary32 -/

/-- A binary32 value.  `fin k` is the finite number `k * 2^(-149)`: every finite
binary32 number is an integer multiple of the smallest subnormal `2^(-149)`.
The sign of zero is not represented (the program never divides by a zero and
never inspects a sign bit). -/
inductive F32 where
  | fin (k : Int)
  | pinf
  | ninf
  | nan
  deriving DecidableEq, Repr

namespace F32

/-- Number of bits by which a magnitude (in units of `2^(-149)`) exceeds the
24-bit significand: `0` below `2^24`, else one more than for half of it. -/
def excess : Nat → Nat → Nat
  | 0, _ => 0
  | fuel + 1, q => if q < 2 ^ 24 then 0 else excess fuel (q / 2) + 1

/-- Round the non-negative rational `a / b` (in units of `2^(-149)`, `b > 0`) to
the nearest binary32 magnitude, ties to even; `none` on overflow. -/
def roundMag (a b : Nat) : Option Nat :=
  let q := a / b
  if 2 ^ 128 * 2 ^ 149 ≤ q then none
  else
    let e := excess 300 q
    let d := b * 2 ^ e
    let m := a / d
    let r := a % d
    let m1 := if d < 2 * r ∨ (2 * r = d ∧ m % 2 = 1) then m + 1 else m
    if 2 ^ 128 * 2 ^ 149 ≤ m1 * 2 ^ e then none else some (m1 * 2 ^ e)

/-- Round the rational `n / d` (in units of `2^(-149)`, `d > 0`) to binary32. -/
def round (n : Int) (d : Nat) : F32 :=
  if 0 ≤ n then
    match roundMag n.toNat d with
    | some k => fin (k : Int)
    | none => pinf
  else
    match roundMag (-n).toNat d with
    | some k => fin (-(k : Int))
    | none => ninf

def add : F32 → F32 → F32
  | fin a, fin b => round (a + b) 1
  | nan, _ => nan
  | _, nan => nan
  | pinf, ninf => nan
  | ninf, pinf => nan
  | pinf, _ => pinf
  | ninf, _ => ninf
  | _, pinf => pinf
  | _, ninf => ninf

def neg : F32 → F32
  | fin a => fin (-a)
  | pinf => ninf
  | ninf => pinf
  | nan => nan

def sub (x y : F32) : F32 := add x (neg y)

/-- Sign of a non-NaN value: `1`, `0` or `-1`. -/
def sgn : F32 → Int
  | fin a => Int.sign a
  | pinf => 1
  | ninf => -1
  | nan => 0

def mul : F32 → F32 → F32
  | fin a, fin b => round (a * b) (2 ^ 149)
  | nan, _ => nan
  | _, nan => nan
  | x, y =>
    if sgn x * sgn y = 0 then nan
    else if 0 < sgn x * sgn y then pinf else ninf

def div : F32 → F32 → F32
  | fin a, fin b =>
    if b = 0 then (if a = 0 then nan else if 0 < a then pinf else ninf)
    else if 0 < b then round (a * 2 ^ 149) b.toNat
    else round (-(a * 2 ^ 149)) (-b).toNat
  | nan, _ => nan
  | _, nan => nan
  | fin _, _ => fin 0
  | x, fin b => if 0 ≤ b then x else neg x
  | _, _ => nan

/-- The comparison `x < y` of C++: false when an operand is NaN. -/
def lt : F32 → F32 → Bool
  | fin a, fin b => decide (a < b)
  | nan, _ => false
  | _, nan => false
  | ninf, ninf => false
  | ninf, _ => true
  | _, ninf => false
  | pinf, _ => false
  | _, pinf => true

/-- The comparison `x >= y` of C++: false when an operand is NaN. -/
def ge : F32 → F32 → Bool
  | fin a, fin b => decide (b ≤ a)
  | nan, _ => false
  | _, nan => false
  | pinf, _ => true
  | _, ninf => true
  | ninf, _ => false
  | _, pinf => false

def fabs : F32 → F32
  | fin a => fin |a|
  | pinf => pinf
  | ninf => pinf
  | nan => nan

/-- Conversion of an integer to `float`. -/
def ofInt (i : Int) : F32 := round (i * 2 ^ 149) 1

/-- The conversion `static_cast<int>(x)`: truncation toward zero; a value
outside the range of `int` (and NaN) gives `INT_MIN`, the result of the x86
conversion instruction. -/
def toInt : F32 → Int
  | fin k =>
    let t := Int.tdiv k (2 ^ 149)
    if -(2 ^ 31) ≤ t ∧ t < 2 ^ 31 then t else -(2 ^ 31)
  | _ => -(2 ^ 31)

/-- The `float` literal with decimal value `n / d`. -/
def lit (n d : Nat) : F32 := round ((n : Int) * 2 ^ 149) d

end F32

instance instFloatArithF32 : FloatArith F32 where
  add := F32.add
  sub := F32.sub
  mul := F32.mul
  div := F32.div
  lt := F32.lt
  ge := F32.ge
  fabs := F32.fabs
  ofInt := F32.ofInt
  toInt := F32.toInt
  lit := F32.lit

/-! ## Data model -/

/-- The enum `MovementPhase`. -/
inductive MovementPhase where
  | ToRight
  | WaitRight
  | ToCenter
  deriving DecidableEq, Repr

/-- The Win32 `POINT`.  Its fields are `LONG`, 32-bit signed integers: they hold
values from `-2^31` to `2^31 - 1`, and the arithmetic the source does on them is
wrapped to that range (`wrapInt32`). -/
structure POINT where
  x : Int
  y : Int
  deriving DecidableEq, Repr

/-- The value a 32-bit signed integer (`int`, `LONG`) holds after an arithmetic
result `x`: `x` itself when it is in range, and otherwise `x` reduced modulo
`2^32` into `-2^31 .. 2^31 - 1`, which is what the x86 targets compute where C++
leaves signed overflow undefined. -/
def wrapInt32 (x : Int) : Int := (x + 2 ^ 31) % 2 ^ 32 - 2 ^ 31

/-- What the code reads of the loaded `Gdiplus::Bitmap`: `GetWidth()` and
`GetHeight()`. -/
structure Bitmap where
  width : Nat
  height : Nat
  deriving DecidableEq, Repr

/-- A reading of `steady_clock`, in nanoseconds (the period of the clock). -/
abbrev TimePoint := Int

/-- The data members of `class LoginWindow` that the animation and the drag
handling use.  `image = none` is the null pointer.  `waitDuration` is a count of
milliseconds.  The window handle, the title string and the font only reach the
drawing calls; the one value the animation takes from them, the measured text
width, is an input of `UpdateImageMovement`. -/
structure LoginWindow (F : Type) where
  image : Option Bitmap
  fadeProgress : F
  textRevealProgress : F
  loadingBarProgress : F
  loadingBarAnimationStarted : Bool
  loadingBarDelayStarted : Bool
  loadingBarDelayStart : TimePoint
  textMargin : Int
  currentImageCenterX : F
  movementPhase : MovementPhase
  waitStartTime : TimePoint
  waitDuration : Int
  appWidth : Int
  scale : F
  isDragging : Bool
  dragStartPoint : POINT
  windowStartPoint : POINT

/-- What the window does to the outside world. -/
inductive Effect where
  | SetTimer (id : Nat) (elapse : Nat)
  | KillTimer (id : Nat)
  | PostClose
  | UpdateLayeredWindow
  | SetWindowPos (x : Int) (y : Int)
  | PostQuitMessage
  deriving DecidableEq, Repr

/-- What one call of `FadeInEffect` reads from outside: the clock reading taken
inside `UpdateImageMovement`, the clock reading taken by `FadeInEffect` itself,
and the text width measured by `MeasureString`. -/
structure TickInput (F : Type) where
  nowMove : TimePoint
  nowDelay : TimePoint
  textWidth : F

section Program

open FloatArith MovementPhase

variable {F : Type} [FloatArith F]

/-! ## The program -/

/-- The function `Lerp`. -/
def Lerp (start end' t : F) : F := add start (mul (sub end' start) t)

/-- The `min` macro of `windows.h`, `(a < b) ? a : b`, which is what `min(...)`
is in the source. -/
def fmin (a b : F) : F := if lt a b then a else b

/-- The constructor `LoginWindow()`.  The two `POINT` members are not
initialised by it; their initial contents are the arguments. -/
def LoginWindow.new (dragStartPoint windowStartPoint : POINT) : LoginWindow F where
  image := none
  fadeProgress := lit 0 1
  textRevealProgress := lit 0 1
  loadingBarProgress := lit 0 1
  loadingBarAnimationStarted := false
  loadingBarDelayStarted := false
  loadingBarDelayStart := 0
  textMargin := 7
  currentImageCenterX := lit 0 1
  movementPhase := ToRight
  waitStartTime := 0
  waitDuration := 500
  appWidth := 800
  scale := lit 25 100
  isDragging := false
  dragStartPoint := dragStartPoint
  windowStartPoint := windowStartPoint

/-- The local `scaledImageWidth`:
`static_cast<int>(image->GetWidth() * scale)`. -/
def scaledImageWidth (s : LoginWindow F) (img : Bitmap) : Int :=
  toInt (mul (ofInt (img.width : Int)) s.scale)

/-- The local `targetCenter` of phase `ToRight`:
`appWidth - scaledImageWidth * 1.3f`. -/
def toRightTarget (s : LoginWindow F) (img : Bitmap) : F :=
  sub (ofInt s.appWidth) (mul (ofInt (scaledImageWidth s img)) (lit 13 10))

/-- The local `targetCenter` of phase `ToCenter`: `textStartX + textWidth / 2.f`
with `textStartX = (appWidth - textWidth) / 2.f`. -/
def toCenterTarget (s : LoginWindow F) (textWidth : F) : F :=
  let textStartX := div (sub (ofInt s.appWidth) textWidth) (lit 2 1)
  add textStartX (div textWidth (lit 2 1))

/-- The method `UpdateImageMovement`.  `now` is the reading of
`steady_clock::now()` and `textWidth` the width measured by `MeasureString`. -/
def UpdateImageMovement (s : LoginWindow F) (now : TimePoint) (textWidth : F) :
    LoginWindow F :=
  match s.image with
  | none => s
  | some img =>
    match s.movementPhase with
    | ToRight =>
      let targetCenter := toRightTarget s img
      let x := Lerp s.currentImageCenterX targetCenter (lit 1 10)
      if lt (fabs (sub x targetCenter)) (lit 2 1) then
        { s with currentImageCenterX := x, movementPhase := WaitRight, waitStartTime := now }
      else
        { s with currentImageCenterX := x }
    | WaitRight =>
      if s.waitDuration * 1000000 ≤ now - s.waitStartTime then
        { s with movementPhase := ToCenter }
      else s
    | ToCenter =>
      let targetCenter := toCenterTarget s textWidth
      { s with currentImageCenterX := Lerp s.currentImageCenterX targetCenter (lit 1 10) }

/-- The method `UpdateLayeredBitmap`, as far as the outside world sees it: it
returns at once when no image is loaded, and otherwise composes the frame and
hands it to `UpdateLayeredWindow` at the window's current position.  It changes
no data member. -/
def UpdateLayeredBitmap (s : LoginWindow F) : List Effect :=
  match s.image with
  | none => []
  | some _ => [Effect.UpdateLayeredWindow]

/-- The condition of the outer `if` of `FadeInEffect`. -/
def allAnimationsDone (s : LoginWindow F) : Bool :=
  ge s.fadeProgress (lit 1 1) && ge s.textRevealProgress (lit 1 1) &&
    decide (s.movementPhase = ToCenter)

/-- The method `FadeInEffect`. -/
def FadeInEffect (s : LoginWindow F) (inp : TickInput F) : LoginWindow F × List Effect :=
  let s1 := { s with
    fadeProgress := fmin (lit 1 1) (add s.fadeProgress (lit 17 1000)),
    textRevealProgress := fmin (lit 1 1) (add s.textRevealProgress (lit 45 1000)) }
  let s2 := UpdateImageMovement s1 inp.nowMove inp.textWidth
  let r : LoginWindow F × List Effect :=
    if allAnimationsDone s2 then
      if !s2.loadingBarDelayStarted then
        ({ s2 with loadingBarDelayStart := inp.nowDelay, loadingBarDelayStarted := true }, [])
      else if decide (2000000000 ≤ inp.nowDelay - s2.loadingBarDelayStart) &&
          !s2.loadingBarAnimationStarted then
        ({ s2 with loadingBarAnimationStarted := true }, [Effect.SetTimer 2 20])
      else (s2, [])
    else (s2, [])
  (r.1, r.2 ++ UpdateLayeredBitmap r.1)

/-- The method `LoadingBarEffect`. -/
def LoadingBarEffect (s : LoginWindow F) : LoginWindow F × List Effect :=
  let s1 := { s with loadingBarProgress := fmin (lit 1 1) (add s.loadingBarProgress (lit 1 100)) }
  let es : List Effect :=
    if ge s1.loadingBarProgress (lit 1 1) then [Effect.KillTimer 2, Effect.PostClose] else []
  (s1, es ++ UpdateLayeredBitmap s1)

/-! ## The window procedure and its host -/

/-- The part of the window system the program acts on: the top-left corner of
the window rectangle, which timers are running, and counters of the close
requests posted and of the frames handed to `UpdateLayeredWindow`. -/
structure Host where
  windowPos : POINT
  timers : Nat → Bool
  closeRequests : Nat
  repaints : Nat
  quitPosted : Bool

/-- Carry out one effect. -/
def Host.perform (h : Host) : Effect → Host
  | Effect.SetTimer id _ => { h with timers := Function.update h.timers id true }
  | Effect.KillTimer id => { h with timers := Function.update h.timers id false }
  | Effect.PostClose => { h with closeRequests := h.closeRequests + 1 }
  | Effect.UpdateLayeredWindow => { h with repaints := h.repaints + 1 }
  | Effect.SetWindowPos x y => { h with windowPos := ⟨x, y⟩ }
  | Effect.PostQuitMessage => { h with quitPosted := true }

/-- Carry out a list of effects, in order. -/
def Host.performAll (h : Host) (es : List Effect) : Host := es.foldl Host.perform h

/-- The window object together with the window system. -/
structure Sys (F : Type) where
  win : LoginWindow F
  host : Host

/-- The messages `WndProc` handles itself (everything else goes to
`DefWindowProc`).  A `WM_TIMER` carries what its handler will read from outside;
a mouse message carries its `lParam`. -/
inductive Msg (F : Type) where
  | WM_CREATE
  | WM_TIMER (wParam : Nat) (inp : TickInput F)
  | WM_LBUTTONDOWN (lParam : Nat)
  | WM_MOUSEMOVE (lParam : Nat)
  | WM_LBUTTONUP
  | WM_PAINT
  | WM_DESTROY

/-- The point `{ LOWORD(lParam), HIWORD(lParam) }`. -/
def pointOfLParam (lParam : Nat) : POINT :=
  ⟨((lParam % 65536 : Nat) : Int), (((lParam / 65536) % 65536 : Nat) : Int)⟩

/-- The function `WndProc`, for the messages it handles itself. -/
def WndProc (sys : Sys F) : Msg F → Sys F
  | Msg.WM_CREATE => { sys with host := sys.host.performAll [Effect.SetTimer 1 20] }
  | Msg.WM_TIMER wParam inp =>
    if wParam = 1 then
      let r := FadeInEffect sys.win inp
      { win := r.1, host := sys.host.performAll r.2 }
    else if wParam = 2 then
      let r := LoadingBarEffect sys.win
      { win := r.1, host := sys.host.performAll r.2 }
    else sys
  | Msg.WM_LBUTTONDOWN lParam =>
    { sys with win := { sys.win with
        isDragging := true,
        dragStartPoint := pointOfLParam lParam,
        windowStartPoint := sys.host.windowPos } }
  | Msg.WM_MOUSEMOVE lParam =>
    if sys.win.isDragging then
      let pt := pointOfLParam lParam
      let dx := wrapInt32 (pt.x - sys.win.dragStartPoint.x)
      let dy := wrapInt32 (pt.y - sys.win.dragStartPoint.y)
      let moved := Effect.SetWindowPos (wrapInt32 (sys.win.windowStartPoint.x + dx))
        (wrapInt32 (sys.win.windowStartPoint.y + dy))
      { sys with host := sys.host.performAll (moved :: UpdateLayeredBitmap sys.win) }
    else sys
  | Msg.WM_LBUTTONUP =>
    let w := { sys.win with isDragging := false }
    { win := w, host := sys.host.performAll (UpdateLayeredBitmap w) }
  | Msg.WM_PAINT => sys
  | Msg.WM_DESTROY =>
    let es := [Effect.KillTimer 1, Effect.KillTimer 2, Effect.PostQuitMessage]
    { sys with host := sys.host.performAll es }

/-- The message loop: a timer message reaches `WndProc` only while its timer is
running; every other message is dispatched as it comes. -/
def dispatch (sys : Sys F) (m : Msg F) : Sys F :=
  match m with
  | Msg.WM_TIMER wParam _ => if sys.host.timers wParam then WndProc sys m else sys
  | _ => WndProc sys m

/-- Dispatch a sequence of messages. -/
def runMessages (sys : Sys F) (ms : List (Msg F)) : Sys F := ms.foldl dispatch sys

/-- The `lParam` the window system puts in a mouse message (`WM_LBUTTONDOWN`,
`WM_MOUSEMOVE`) for a cursor at screen point `cursor`, sent to a window whose
client area has its origin at screen point `origin`: the cursor position in
client coordinates, x in the low-order word and y in the high-order word, 16
bits each.  This is the Win32 contract of these messages; the source decodes
the two words and never converts them to screen coordinates. -/
def mouseLParam (cursor origin : POINT) : Nat :=
  ((cursor.x - origin.x) % 65536).toNat + 65536 * ((cursor.y - origin.y) % 65536).toNat

/-- The left button goes down with the cursor at screen point `cursor`.  The
window is created `WS_POPUP` without border or caption, so its client origin is
the top-left corner of its window rectangle. -/
def buttonDownAt (sys : Sys F) (cursor : POINT) : Sys F :=
  WndProc sys (Msg.WM_LBUTTONDOWN (mouseLParam cursor sys.host.windowPos))

/-- The cursor is at screen point `cursor` and the window receives the
`WM_MOUSEMOVE` for it. -/
def mouseMoveAt (sys : Sys F) (cursor : POINT) : Sys F :=
  WndProc sys (Msg.WM_MOUSEMOVE (mouseLParam cursor sys.host.windowPos))

/-- The window object as `WinMain` leaves it when it enters the message loop:
constructed, the image loaded, and `currentImageCenterX` set to
`scaledImageWidth / 2.f`. -/
def WinMain.login (img : Bitmap) (d w : POINT) : LoginWindow F :=
  let login : LoginWindow F := { (LoginWindow.new d w : LoginWindow F) with image := some img }
  { login with currentImageCenterX := div (ofInt (scaledImageWidth login img)) (lit 2 1) }

/-! ## Runs of the timer handlers -/

/-- The window after a sequence of `FadeInEffect` calls, one per input. -/
def fadeTicks (s : LoginWindow F) (ins : List (TickInput F)) : LoginWindow F :=
  ins.foldl (fun st inp => (FadeInEffect st inp).1) s

/-- The window after `n` calls of `LoadingBarEffect`. -/
def loadingTicks (s : LoginWindow F) : Nat → LoginWindow F
  | 0 => s
  | n + 1 => (LoadingBarEffect (loadingTicks s n)).1

/-- The window after a sequence of `UpdateImageMovement` calls, one per pair of
clock reading and measured text width. -/
def moveTicks (s : LoginWindow F) (ins : List (TimePoint × F)) : LoginWindow F :=
  ins.foldl (fun st inp => UpdateImageMovement st inp.1 inp.2) s

/-- The phases a run of `FadeInEffect` ticks goes through: the phase before the
first tick and the phase after each tick. -/
def phaseTrace (s : LoginWindow F) : List (TickInput F) → List MovementPhase
  | [] => [s.movementPhase]
  | inp :: ins => s.movementPhase :: phaseTrace (FadeInEffect s inp).1 ins

/-- The position of a phase in the order `ToRight`, `WaitRight`, `ToCenter`. -/
def MovementPhase.rank : MovementPhase → Nat
  | ToRight => 0
  | WaitRight => 1
  | ToCenter => 2

/-! ## Auxiliary definitions for the statements -/

/-- The state between the two halves of `FadeInEffect`: both fade values
advanced and the image moved. -/
def afterMove (s : LoginWindow F) (inp : TickInput F) : LoginWindow F :=
  { UpdateImageMovement s inp.nowMove inp.textWidth with
    fadeProgress := fmin (lit 1 1) (add s.fadeProgress (lit 17 1000)),
    textRevealProgress := fmin (lit 1 1) (add s.textRevealProgress (lit 45 1000)) }

/-- The guard under which `FadeInEffect`, called in state `st` with input `inp`,
executes the assignments to `loadingBarDelayStart` and
`loadingBarDelayStarted`. -/
def setsDelayStart (st : LoginWindow F) (inp : TickInput F) : Bool :=
  allAnimationsDone (afterMove st inp) && !(afterMove st inp).loadingBarDelayStarted

/-- A progress value after `n` steps `x := min(1.f, x + step)` from `start`. -/
def clampedSteps (step start : F) : Nat → F
  | 0 => start
  | n + 1 => fmin (lit 1 1) (add (clampedSteps step start n) step)

/-- The messages that begin or end a drag. -/
def isButtonMsg : Msg F → Bool
  | Msg.WM_LBUTTONDOWN _ => true
  | Msg.WM_LBUTTONUP => true
  | _ => false

/-- A timer message. -/
def isTimerMsg : Msg F → Bool
  | Msg.WM_TIMER _ _ => true
  | _ => false

/-- A message of timer 2, the loading-bar timer. -/
def isTimer2 : Msg F → Bool
  | Msg.WM_TIMER wParam _ => decide (wParam = 2)
  | _ => false

end Program

namespace F32

/-- The rational value of a finite binary32 number (`0` for the others). -/
def val : F32 → ℚ
  | fin k => (k : ℚ) / 2 ^ 149
  | _ => 0

/-- Decidable form of `|x - num / den| ≤ 10^(-6)`, for a finite `x`. -/
def near (x : F32) (num den : Nat) : Bool :=
  match x with
  | fin k => decide (|k * (den : Int) - (num : Int) * 2 ^ 149| * 1000000 ≤ (den : Int) * 2 ^ 149)
  | _ => false

/-- One as a binary32 number. -/
def one : F32 := fin (2 ^ 149)

end F32

section Demo

open FloatArith

/-- The state of a run of timer messages after `c` messages of timer 2. -/
def LoadingInv (base : Nat) (sys : Sys F32) (c : Nat) : Prop :=
  sys.win.loadingBarAnimationStarted = true ∧
  (c < 101 → sys.win.loadingBarProgress = clampedSteps (lit 1 100) (F32.fin 0) c ∧
    sys.host.timers 2 = true ∧ sys.host.closeRequests = base) ∧
  (101 ≤ c → sys.host.timers 2 = false ∧ sys.host.closeRequests = base + 1)

/-- The window object at the start of the message loop for a 400 x 300 image. -/
def demoLogin : LoginWindow F32 := WinMain.login ⟨400, 300⟩ ⟨0, 0⟩ ⟨0, 0⟩

/-- The window object at the start of the message loop for a 1776 x 1000 image:
its scaled width is 444, so it starts at centre 222, next to its `ToRight`
target `800 - 444 * 1.3`. -/
def wideLogin : LoginWindow F32 := WinMain.login ⟨1776, 1000⟩ ⟨0, 0⟩ ⟨0, 0⟩

/-- A window in phase `ToCenter` at centre 670 with a 400 x 300 image, in exact
arithmetic. -/
def centredDemo : LoginWindow ℚ :=
  { (LoginWindow.new ⟨0, 0⟩ ⟨0, 0⟩ : LoginWindow ℚ) with
    image := some ⟨400, 300⟩, movementPhase := MovementPhase.ToCenter,
    currentImageCenterX := 670 }

/-- A timer tick that reads the clock at `ms` milliseconds and measures a text
width of 300 pixels. -/
def demoTick (ms : Nat) : TickInput F32 :=
  ⟨(ms : Int) * 1000000, (ms : Int) * 1000000, F32.ofInt 300⟩

/-- The first `n` ticks of a timer that fires every 20 ms. -/
def demoRun (n : Nat) : List (TickInput F32) :=
  (List.range n).map (fun k => demoTick (20 * (k + 1)))

/-- The window system with the window at `(200, 200)` and timer 1 running. -/
def demoHost : Host :=
  { windowPos := ⟨200, 200⟩, timers := fun id => decide (id = 1), closeRequests := 0,
    repaints := 0, quitPosted := false }

end Demo

section Facts

open FloatArith MovementPhase

variable {F : Type} [FloatArith F]

/-! ## Basic facts about the handlers -/

section Frame

variable (s : LoginWindow F) (now : TimePoint) (tw : F)

theorem uim_image : (UpdateImageMovement s now tw).image = s.image := by
  unfold UpdateImageMovement; split
  · rfl
  · split
    · dsimp only; split <;> rfl
    · split <;> rfl
    · rfl

theorem uim_fade : (UpdateImageMovement s now tw).fadeProgress = s.fadeProgress := by
  unfold UpdateImageMovement; split
  · rfl
  · split
    · dsimp only; split <;> rfl
    · split <;> rfl
    · rfl

theorem uim_text :
    (UpdateImageMovement s now tw).textRevealProgress = s.textRevealProgress := by
  unfold UpdateImageMovement; split
  · rfl
  · split
    · dsimp only; split <;> rfl
    · split <;> rfl
    · rfl

theorem uim_loading :
    (UpdateImageMovement s now tw).loadingBarProgress = s.loadingBarProgress := by
  unfold UpdateImageMovement; split
  · rfl
  · split
    · dsimp only; split <;> rfl
    · split <;> rfl
    · rfl

theorem uim_animStarted :
    (UpdateImageMovement s now tw).loadingBarAnimationStarted = s.loadingBarAnimationStarted := by
  unfold UpdateImageMovement; split
  · rfl
  · split
    · dsimp only; split <;> rfl
    · split <;> rfl
    · rfl

theorem uim_delayStarted :
    (UpdateImageMovement s now tw).loadingBarDelayStarted = s.loadingBarDelayStarted := by
  unfold UpdateImageMovement; split
  · rfl
  · split
    · dsimp only; split <;> rfl
    · split <;> rfl
    · rfl

theorem uim_delayStart :
    (UpdateImageMovement s now tw).loadingBarDelayStart = s.loadingBarDelayStart := by
  unfold UpdateImageMovement; split
  · rfl
  · split
    · dsimp only; split <;> rfl
    · split <;> rfl
    · rfl

theorem uim_waitDuration : (UpdateImageMovement s now tw).waitDuration = s.waitDuration := by
  unfold UpdateImageMovement; split
  · rfl
  · split
    · dsimp only; split <;> rfl
    · split <;> rfl
    · rfl

theorem uim_appWidth : (UpdateImageMovement s now tw).appWidth = s.appWidth := by
  unfold UpdateImageMovement; split
  · rfl
  · split
    · dsimp only; split <;> rfl
    · split <;> rfl
    · rfl

theorem uim_scale : (UpdateImageMovement s now tw).scale = s.scale := by
  unfold UpdateImageMovement; split
  · rfl
  · split
    · dsimp only; split <;> rfl
    · split <;> rfl
    · rfl

/-- One call of `UpdateImageMovement` keeps the phase or advances it by one
step. -/
theorem uim_phase_step :
    (UpdateImageMovement s now tw).movementPhase = s.movementPhase ∨
    (s.movementPhase = ToRight ∧ (UpdateImageMovement s now tw).movementPhase = WaitRight) ∨
    (s.movementPhase = WaitRight ∧ (UpdateImageMovement s now tw).movementPhase = ToCenter) := by
  unfold UpdateImageMovement; split
  · exact Or.inl rfl
  · split
    · rename_i h; dsimp only; split
      · exact Or.inr (Or.inl ⟨h, rfl⟩)
      · exact Or.inl rfl
    · rename_i h; split
      · exact Or.inr (Or.inr ⟨h, rfl⟩)
      · exact Or.inl rfl
    · exact Or.inl rfl

end Frame

section FadeFacts

variable (s : LoginWindow F) (inp : TickInput F)

/-- `UpdateImageMovement` neither reads nor writes the two fade values. -/
theorem uim_congr (now : TimePoint) (tw a b : F) :
    UpdateImageMovement { s with fadeProgress := a, textRevealProgress := b } now tw =
      { UpdateImageMovement s now tw with fadeProgress := a, textRevealProgress := b } := by
  obtain ⟨img, fp, tp, lp, as, ds, dst, tm, cx, ph, wst, wd, aw, sc, dr, dsp, wsp⟩ := s
  cases img <;> cases ph <;>
    simp only [UpdateImageMovement, toRightTarget, scaledImageWidth, toCenterTarget] <;>
    split <;> rfl

theorem fadeIn_eq :
    FadeInEffect s inp =
      (if allAnimationsDone (afterMove s inp) then
        if !(afterMove s inp).loadingBarDelayStarted then
          ({ afterMove s inp with
              loadingBarDelayStart := inp.nowDelay, loadingBarDelayStarted := true },
            UpdateLayeredBitmap (afterMove s inp))
        else if decide (2000000000 ≤ inp.nowDelay - (afterMove s inp).loadingBarDelayStart) &&
            !(afterMove s inp).loadingBarAnimationStarted then
          ({ afterMove s inp with loadingBarAnimationStarted := true },
            Effect.SetTimer 2 20 :: UpdateLayeredBitmap (afterMove s inp))
        else (afterMove s inp, UpdateLayeredBitmap (afterMove s inp))
      else (afterMove s inp, UpdateLayeredBitmap (afterMove s inp))) := by
  unfold FadeInEffect afterMove
  simp only [uim_congr]
  split_ifs <;> simp [UpdateLayeredBitmap]

theorem fade_phase :
    (FadeInEffect s inp).1.movementPhase =
      (UpdateImageMovement s inp.nowMove inp.textWidth).movementPhase := by
  rw [fadeIn_eq]; split_ifs <;> rfl

theorem fade_waitStart :
    (FadeInEffect s inp).1.waitStartTime =
      (UpdateImageMovement s inp.nowMove inp.textWidth).waitStartTime := by
  rw [fadeIn_eq]; split_ifs <;> rfl

theorem fade_center :
    (FadeInEffect s inp).1.currentImageCenterX =
      (UpdateImageMovement s inp.nowMove inp.textWidth).currentImageCenterX := by
  rw [fadeIn_eq]; split_ifs <;> rfl

theorem fade_waitDuration : (FadeInEffect s inp).1.waitDuration = s.waitDuration := by
  rw [fadeIn_eq]; split_ifs <;> exact uim_waitDuration s _ _

theorem fade_image : (FadeInEffect s inp).1.image = s.image := by
  rw [fadeIn_eq]; split_ifs <;> exact uim_image s _ _

theorem fade_loading : (FadeInEffect s inp).1.loadingBarProgress = s.loadingBarProgress := by
  rw [fadeIn_eq]; split_ifs <;> exact uim_loading s _ _

theorem fade_fade :
    (FadeInEffect s inp).1.fadeProgress = fmin (lit 1 1) (add s.fadeProgress (lit 17 1000)) := by
  rw [fadeIn_eq]; split_ifs <;> rfl

theorem fade_text :
    (FadeInEffect s inp).1.textRevealProgress =
      fmin (lit 1 1) (add s.textRevealProgress (lit 45 1000)) := by
  rw [fadeIn_eq]; split_ifs <;> rfl

/-- The outer condition of `FadeInEffect` has the same value on the state the
call returns as where the call tests it. -/
theorem fade_done :
    allAnimationsDone (FadeInEffect s inp).1 = allAnimationsDone (afterMove s inp) := by
  rw [fadeIn_eq]; split_ifs <;> rfl

theorem afterMove_delayStarted :
    (afterMove s inp).loadingBarDelayStarted = s.loadingBarDelayStarted :=
  uim_delayStarted s _ _

theorem afterMove_delayStart :
    (afterMove s inp).loadingBarDelayStart = s.loadingBarDelayStart :=
  uim_delayStart s _ _

theorem afterMove_animStarted :
    (afterMove s inp).loadingBarAnimationStarted = s.loadingBarAnimationStarted :=
  uim_animStarted s _ _

theorem fade_delayStarted :
    (FadeInEffect s inp).1.loadingBarDelayStarted =
      (s.loadingBarDelayStarted || allAnimationsDone (FadeInEffect s inp).1) := by
  rw [fade_done, fadeIn_eq]
  split_ifs with h1 h2 h3 <;> simp_all [afterMove_delayStarted]

theorem fade_delayStart :
    (FadeInEffect s inp).1.loadingBarDelayStart =
      if allAnimationsDone (FadeInEffect s inp).1 ∧ s.loadingBarDelayStarted = false
      then inp.nowDelay else s.loadingBarDelayStart := by
  rw [fade_done, fadeIn_eq]
  split_ifs with h1 h2 h3 <;> simp_all [afterMove_delayStarted, afterMove_delayStart]

theorem fade_animStarted :
    (FadeInEffect s inp).1.loadingBarAnimationStarted =
      (s.loadingBarAnimationStarted ||
        (allAnimationsDone (FadeInEffect s inp).1 && s.loadingBarDelayStarted &&
          decide (2000000000 ≤ inp.nowDelay - s.loadingBarDelayStart))) := by
  rw [fade_done, fadeIn_eq]
  split_ifs with h1 h2 h3 <;>
    simp_all [afterMove_delayStarted, afterMove_delayStart, afterMove_animStarted]

theorem fade_setTimer :
    Effect.SetTimer 2 20 ∈ (FadeInEffect s inp).2 ↔
      (allAnimationsDone (FadeInEffect s inp).1 = true ∧ s.loadingBarDelayStarted = true ∧
        2000000000 ≤ inp.nowDelay - s.loadingBarDelayStart ∧
        s.loadingBarAnimationStarted = false) := by
  rw [fade_done, fadeIn_eq]
  split_ifs with h1 h2 h3 <;>
    simp_all [afterMove_delayStarted, afterMove_delayStart, afterMove_animStarted,
      UpdateLayeredBitmap] <;>
    (try split) <;> simp_all

end FadeFacts

section Runs

variable (s : LoginWindow F)

theorem fadeTicks_nil : fadeTicks s [] = s := rfl

theorem fadeTicks_cons (inp : TickInput F) (ins : List (TickInput F)) :
    fadeTicks s (inp :: ins) = fadeTicks (FadeInEffect s inp).1 ins := rfl

theorem fadeTicks_append (xs ys : List (TickInput F)) :
    fadeTicks s (xs ++ ys) = fadeTicks (fadeTicks s xs) ys := by
  simp [fadeTicks, List.foldl_append]

theorem fadeTicks_snoc (xs : List (TickInput F)) (inp : TickInput F) :
    fadeTicks s (xs ++ [inp]) = (FadeInEffect (fadeTicks s xs) inp).1 := by
  rw [fadeTicks_append]; rfl

/-- One call of `FadeInEffect` keeps the phase or advances it by one step. -/
theorem fade_phase_step (inp : TickInput F) :
    (FadeInEffect s inp).1.movementPhase = s.movementPhase ∨
    (s.movementPhase = ToRight ∧ (FadeInEffect s inp).1.movementPhase = WaitRight) ∨
    (s.movementPhase = WaitRight ∧ (FadeInEffect s inp).1.movementPhase = ToCenter) := by
  rw [fade_phase]; exact uim_phase_step s _ _

theorem rank_le_fade (inp : TickInput F) :
    s.movementPhase.rank ≤ (FadeInEffect s inp).1.movementPhase.rank := by
  rcases fade_phase_step s inp with h | ⟨h1, h2⟩ | ⟨h1, h2⟩
  · rw [h]
  · rw [h1, h2]; decide
  · rw [h1, h2]; decide

theorem rank_le_fadeTicks (ins : List (TickInput F)) :
    s.movementPhase.rank ≤ (fadeTicks s ins).movementPhase.rank := by
  induction ins generalizing s with
  | nil => exact le_refl _
  | cons a t ih => exact le_trans (rank_le_fade s a) (ih _)

omit [FloatArith F] in
theorem take_split (ins : List (TickInput F)) {i j : Nat} (h : i ≤ j) :
    ins.take j = ins.take i ++ (ins.take j).drop i := by
  have h1 : (ins.take j).take i = ins.take i := by
    rw [List.take_take, Nat.min_eq_left h]
  rw [← h1, List.take_append_drop]

theorem rank_mono_run (ins : List (TickInput F)) {i j : Nat} (h : i ≤ j) :
    (fadeTicks s (ins.take i)).movementPhase.rank ≤
      (fadeTicks s (ins.take j)).movementPhase.rank := by
  rw [take_split ins h, fadeTicks_append]
  exact rank_le_fadeTicks _ _

end Runs

section WaitFacts

variable (s : LoginWindow F) (now : TimePoint) (tw : F)

theorem uim_enter_wait (h : s.movementPhase = ToRight)
    (h' : (UpdateImageMovement s now tw).movementPhase = WaitRight) :
    (UpdateImageMovement s now tw).waitStartTime = now := by
  obtain ⟨img, fp, tp, lp, as, ds, dst, tm, cx, ph, wst, wd, aw, sc, dr, dsp, wsp⟩ := s
  subst h
  cases img
  · simp [UpdateImageMovement] at h'
  · simp only [UpdateImageMovement] at h' ⊢
    split at h'
    · rw [if_pos (by assumption)]
    · simp at h'

theorem uim_wait_center (h : s.movementPhase = WaitRight) :
    (UpdateImageMovement s now tw).currentImageCenterX = s.currentImageCenterX := by
  obtain ⟨img, fp, tp, lp, as, ds, dst, tm, cx, ph, wst, wd, aw, sc, dr, dsp, wsp⟩ := s
  subst h
  cases img
  · rfl
  · simp only [UpdateImageMovement]; split <;> rfl

theorem uim_wait_waitStart (h : s.movementPhase = WaitRight) :
    (UpdateImageMovement s now tw).waitStartTime = s.waitStartTime := by
  obtain ⟨img, fp, tp, lp, as, ds, dst, tm, cx, ph, wst, wd, aw, sc, dr, dsp, wsp⟩ := s
  subst h
  cases img
  · rfl
  · simp only [UpdateImageMovement]; split <;> rfl

theorem uim_leave_wait (h : s.movementPhase = WaitRight)
    (h' : (UpdateImageMovement s now tw).movementPhase = ToCenter) :
    s.waitDuration * 1000000 ≤ now - s.waitStartTime := by
  obtain ⟨img, fp, tp, lp, as, ds, dst, tm, cx, ph, wst, wd, aw, sc, dr, dsp, wsp⟩ := s
  subst h
  cases img
  · simp [UpdateImageMovement] at h'
  · simp only [UpdateImageMovement] at h'
    split at h'
    · assumption
    · simp at h'

theorem uim_center_stay (h : s.movementPhase = ToCenter) :
    (UpdateImageMovement s now tw).movementPhase = ToCenter := by
  rcases uim_phase_step s now tw with h1 | ⟨h1, _⟩ | ⟨h1, _⟩
  · rw [h1, h]
  · rw [h] at h1; cases h1
  · rw [h] at h1; cases h1

theorem fadeTicks_waitDuration (ins : List (TickInput F)) :
    (fadeTicks s ins).waitDuration = s.waitDuration := by
  induction ins generalizing s with
  | nil => rfl
  | cons a t ih => rw [fadeTicks_cons, ih, fade_waitDuration]

/-- While the phase is `WaitRight`, the run remembers the tick that entered it:
`waitStartTime` is the clock reading of that tick and the image has not moved
since. -/
theorem wait_entry (hs : s.movementPhase = ToRight) (pre : List (TickInput F)) :
    (fadeTicks s pre).movementPhase = WaitRight →
    ∃ pre1 inp1 rest, pre = pre1 ++ inp1 :: rest ∧
      (fadeTicks s pre1).movementPhase = ToRight ∧
      (fadeTicks s (pre1 ++ [inp1])).movementPhase = WaitRight ∧
      (fadeTicks s pre).waitStartTime = inp1.nowMove ∧
      (fadeTicks s pre).currentImageCenterX =
        (fadeTicks s (pre1 ++ [inp1])).currentImageCenterX := by
  induction pre using List.reverseRecOn with
  | nil => intro h; rw [fadeTicks_nil, hs] at h; cases h
  | append_singleton l a ih =>
    intro h
    rw [fadeTicks_snoc, fade_phase] at h
    rcases uim_phase_step (fadeTicks s l) a.nowMove a.textWidth with h1 | ⟨h1, h2⟩ | ⟨h1, h2⟩
    · rw [h] at h1
      obtain ⟨pre1, inp1, rest, e, p1, p2, p3, p4⟩ := ih h1.symm
      refine ⟨pre1, inp1, rest ++ [a], ?_, p1, p2, ?_, ?_⟩
      · rw [e]; simp
      · rw [fadeTicks_snoc, fade_waitStart, uim_wait_waitStart _ _ _ h1.symm, p3]
      · rw [fadeTicks_snoc, fade_center, uim_wait_center _ _ _ h1.symm, p4]
    · refine ⟨l, a, [], rfl, h1, ?_, ?_, rfl⟩
      · rw [fadeTicks_snoc, fade_phase]; exact h
      · rw [fadeTicks_snoc, fade_waitStart]; exact uim_enter_wait _ _ _ h1 h
    · rw [h] at h2; cases h2

end WaitFacts

section DelayFacts

variable (s : LoginWindow F)

theorem setsDelayStart_iff (st : LoginWindow F) (inp : TickInput F) :
    setsDelayStart st inp = true ↔
      (allAnimationsDone (FadeInEffect st inp).1 = true ∧ st.loadingBarDelayStarted = false) := by
  unfold setsDelayStart
  rw [fade_done, afterMove_delayStarted]
  simp

theorem split_snoc {α : Type} {l pre rest : List α} {a x : α}
    (e : l ++ [a] = pre ++ x :: rest) :
    (rest = [] ∧ pre = l ∧ x = a) ∨ ∃ rest', rest = rest' ++ [a] ∧ l = pre ++ x :: rest' := by
  rcases List.eq_nil_or_concat rest with h | ⟨r, b, h⟩
  · subst h
    have := List.append_inj' e rfl
    simp at this
    exact Or.inl ⟨rfl, this.1.symm, this.2.symm⟩
  · subst h
    right
    have e' : l ++ [a] = (pre ++ x :: r) ++ [b] := by simpa using e
    have := List.append_inj' e' rfl
    simp at this
    exact ⟨r, by rw [this.2, List.concat_eq_append], this.1⟩

theorem delayStarted_iff (hs : s.loadingBarDelayStarted = false) (pre : List (TickInput F)) :
    (fadeTicks s pre).loadingBarDelayStarted = true ↔
      ∃ pre' inp' rest, pre = pre' ++ inp' :: rest ∧
        allAnimationsDone (fadeTicks s (pre' ++ [inp'])) = true := by
  induction pre using List.reverseRecOn with
  | nil => simp [fadeTicks_nil, hs]
  | append_singleton l a ih =>
    rw [fadeTicks_snoc, fade_delayStarted, Bool.or_eq_true, ih]
    constructor
    · rintro (⟨p, x, r, e, h⟩ | h)
      · exact ⟨p, x, r ++ [a], by rw [e]; simp, h⟩
      · exact ⟨l, a, [], rfl, by rw [fadeTicks_snoc]; exact h⟩
    · rintro ⟨p, x, r, e, h⟩
      rcases split_snoc e with ⟨_, h2, h3⟩ | ⟨r', _, h2⟩
      · right; subst h2; subst h3; rw [fadeTicks_snoc] at h; exact h
      · left; exact ⟨p, x, r', h2, h⟩

theorem delayStart_recorded (hs : s.loadingBarDelayStarted = false) (pre : List (TickInput F)) :
    (fadeTicks s pre).loadingBarDelayStarted = true →
      ∃ pre1 inp1 rest, pre = pre1 ++ inp1 :: rest ∧
        setsDelayStart (fadeTicks s pre1) inp1 = true ∧
        (fadeTicks s pre).loadingBarDelayStart = inp1.nowDelay := by
  induction pre using List.reverseRecOn with
  | nil => intro h; rw [fadeTicks_nil, hs] at h; cases h
  | append_singleton l a ih =>
    intro h
    rw [fadeTicks_snoc] at h ⊢
    cases hl : (fadeTicks s l).loadingBarDelayStarted with
    | true =>
      obtain ⟨p, x, r, e, h1, h2⟩ := ih hl
      refine ⟨p, x, r ++ [a], by rw [e]; simp, h1, ?_⟩
      rw [fade_delayStart, if_neg (by simp [hl]), h2]
    | false =>
      rw [fade_delayStarted, hl, Bool.false_or] at h
      refine ⟨l, a, [], rfl, (setsDelayStart_iff _ _).2 ⟨h, hl⟩, ?_⟩
      rw [fade_delayStart, if_pos ⟨h, hl⟩]

theorem delayStart_kept (st : LoginWindow F) (h : st.loadingBarDelayStarted = true)
    (post : List (TickInput F)) :
    (fadeTicks st post).loadingBarDelayStarted = true ∧
      (fadeTicks st post).loadingBarDelayStart = st.loadingBarDelayStart := by
  induction post generalizing st with
  | nil => exact ⟨h, rfl⟩
  | cons a t ih =>
    rw [fadeTicks_cons]
    have h1 : (FadeInEffect st a).1.loadingBarDelayStarted = true := by
      rw [fade_delayStarted, h]; rfl
    have h2 : (FadeInEffect st a).1.loadingBarDelayStart = st.loadingBarDelayStart := by
      rw [fade_delayStart, if_neg (by simp [h])]
    obtain ⟨i1, i2⟩ := ih _ h1
    exact ⟨i1, by rw [i2, h2]⟩

theorem animStarted_kept (st : LoginWindow F) (h : st.loadingBarAnimationStarted = true)
    (post : List (TickInput F)) :
    (fadeTicks st post).loadingBarAnimationStarted = true := by
  induction post generalizing st with
  | nil => exact h
  | cons a t ih =>
    rw [fadeTicks_cons]
    exact ih _ (by rw [fade_animStarted, h]; rfl)

end DelayFacts

section Clamped

theorem fadeTicks_fade (s : LoginWindow F) (ins : List (TickInput F)) :
    (fadeTicks s ins).fadeProgress = clampedSteps (lit 17 1000) s.fadeProgress ins.length := by
  induction ins using List.reverseRecOn with
  | nil => rfl
  | append_singleton l a ih =>
    rw [fadeTicks_snoc, fade_fade, ih, List.length_append]; rfl

theorem fadeTicks_text (s : LoginWindow F) (ins : List (TickInput F)) :
    (fadeTicks s ins).textRevealProgress =
      clampedSteps (lit 45 1000) s.textRevealProgress ins.length := by
  induction ins using List.reverseRecOn with
  | nil => rfl
  | append_singleton l a ih =>
    rw [fadeTicks_snoc, fade_text, ih, List.length_append]; rfl

theorem loadingTicks_loading (s : LoginWindow F) (n : Nat) :
    (loadingTicks s n).loadingBarProgress = clampedSteps (lit 1 100) s.loadingBarProgress n := by
  induction n with
  | zero => rfl
  | succ n ih => simp only [loadingTicks, clampedSteps, ← ih]; rfl

/-- Once a clamped progress value is at a fixed point of the step, it stays. -/
theorem clampedSteps_stay (step start : F) (c : F) (m : Nat)
    (hm : clampedSteps step start m = c) (hc : fmin (lit 1 1) (add c step) = c) (n : Nat) :
    clampedSteps step start (m + n) = c := by
  induction n with
  | zero => exact hm
  | succ n ih => rw [← Nat.add_assoc]; simp only [clampedSteps, ih, hc]

end Clamped

end Facts

/-! ## Facts of binary32 arithmetic used by the animation -/

namespace F32

theorem near_val (x : F32) (num den : Nat) (hd : 0 < den) (h : near x num den = true) :
    |val x - (num : ℚ) / (den : ℚ)| ≤ 1 / 1000000 := by
  cases x with
  | fin k =>
    simp only [near, decide_eq_true_eq] at h
    simp only [val]
    have hd' : (0 : ℚ) < (den : ℚ) := by exact_mod_cast hd
    have h2 : (0 : ℚ) < 2 ^ 149 := by positivity
    have hq : |(k : ℚ) * (den : ℚ) - (num : ℚ) * 2 ^ 149| * 1000000 ≤ (den : ℚ) * 2 ^ 149 := by
      exact_mod_cast h
    have e : (k : ℚ) / 2 ^ 149 - (num : ℚ) / (den : ℚ) =
        ((k : ℚ) * (den : ℚ) - (num : ℚ) * 2 ^ 149) / ((den : ℚ) * 2 ^ 149) := by
      field_simp
      ring
    rw [e, abs_div, abs_of_pos (mul_pos hd' h2), div_le_iff₀ (mul_pos hd' h2)]
    generalize |(k : ℚ) * (den : ℚ) - (num : ℚ) * 2 ^ 149| = A at hq ⊢
    generalize (den : ℚ) * 2 ^ 149 = D at hq ⊢
    linarith
  | pinf => simp [near] at h
  | ninf => simp [near] at h
  | nan => simp [near] at h

end F32

section F32Facts

open FloatArith

theorem F32.ge_trans (a b c : F32) (h1 : F32.ge a b = true) (h2 : F32.ge b c = true) :
    F32.ge a c = true := by
  cases a <;> cases b <;> cases c <;> simp_all [F32.ge]
  omega

theorem F32.ge_of_lt (a b : F32) (h : F32.lt a b = true) : F32.ge b a = true := by
  cases a <;> cases b <;> simp_all [F32.lt, F32.ge]
  omega

theorem F32.ne_of_lt (a b : F32) (h : F32.lt a b = true) : a ≠ b := by
  intro e; subst e
  cases a <;> simp_all [F32.lt]

theorem lit_one : (lit 1 1 : F32) = F32.one := by decide!

theorem lit_zero : (lit 0 1 : F32) = F32.fin 0 := by decide!

theorem F32.ge_self (a b : F32) (h : F32.ge a b = true) : F32.ge a a = true := by
  cases a <;> cases b <;> simp_all [F32.ge]

theorem val_fin (k : Int) : F32.val (F32.fin k) = (k : ℚ) / 2 ^ 149 := rfl

theorem val_one : F32.val F32.one = 1 := by
  rw [F32.one, val_fin]
  norm_num

/-- The shape of a clamped progress value in binary32, from the facts about its
first `N` steps: below 1 before step `N`, equal to 1 from step `N` on, never
decreasing, and between 0 and 1. -/
theorem clamped_profile (step : F32) (N : Nat)
    (hbelow : ∀ n < N, F32.lt (clampedSteps step (F32.fin 0) n) F32.one = true)
    (hN : clampedSteps step (F32.fin 0) N = F32.one)
    (hfix : fmin (lit 1 1) (add F32.one step : F32) = F32.one)
    (hmono : ∀ n < N, F32.ge (clampedSteps step (F32.fin 0) (n + 1))
      (clampedSteps step (F32.fin 0) n) = true)
    (hnn : ∀ n < N, F32.ge (clampedSteps step (F32.fin 0) n) (F32.fin 0) = true) (n : Nat) :
    (n < N → F32.lt (clampedSteps step (F32.fin 0) n) F32.one = true) ∧
    (N ≤ n → clampedSteps step (F32.fin 0) n = F32.one) ∧
    F32.ge (clampedSteps step (F32.fin 0) n) (F32.fin 0) = true ∧
    F32.ge F32.one (clampedSteps step (F32.fin 0) n) = true ∧
    ∀ m, n ≤ m → F32.ge (clampedSteps step (F32.fin 0) m)
      (clampedSteps step (F32.fin 0) n) = true := by
  have hge : ∀ k, N ≤ k → clampedSteps step (F32.fin 0) k = F32.one := by
    intro k hk
    obtain ⟨d, rfl⟩ := Nat.exists_eq_add_of_le hk
    exact clampedSteps_stay step (F32.fin 0) F32.one N hN hfix d
  have hone : F32.ge F32.one F32.one = true := by decide!
  have hstep : ∀ k, F32.ge (clampedSteps step (F32.fin 0) (k + 1))
      (clampedSteps step (F32.fin 0) k) = true := by
    intro k
    by_cases hk : k < N
    · exact hmono k hk
    · rw [hge k (by omega), hge (k + 1) (by omega)]; exact hone
  have h0 : F32.ge (clampedSteps step (F32.fin 0) n) (F32.fin 0) = true := by
    by_cases hk : n < N
    · exact hnn n hk
    · rw [hge n (by omega)]; decide!
  refine ⟨hbelow n, hge n, h0, ?_, ?_⟩
  · by_cases hk : n < N
    · exact F32.ge_of_lt _ _ (hbelow n hk)
    · rw [hge n (by omega)]; exact hone
  · intro m hm
    obtain ⟨d, rfl⟩ := Nat.exists_eq_add_of_le hm
    induction d with
    | zero => exact F32.ge_self _ _ h0
    | succ d ih =>
      exact F32.ge_trans _ _ _ (hstep (n + d)) (ih (by omega))

/-- The first 59 values of the sequence, evaluated once. -/
theorem fade_table :
    (∀ n < 59, F32.lt (clampedSteps (lit 17 1000) (F32.fin 0) n) F32.one = true ∧
      F32.near (clampedSteps (lit 17 1000) (F32.fin 0) n) (17 * n) 1000 = true ∧
      F32.ge (clampedSteps (lit 17 1000) (F32.fin 0) (n + 1)) (clampedSteps (lit 17 1000) (F32.fin 0) n) = true ∧
      F32.ge (clampedSteps (lit 17 1000) (F32.fin 0) n) (F32.fin 0) = true) ∧
    clampedSteps (lit 17 1000) (F32.fin 0) 59 = F32.one ∧
    fmin (lit 1 1) (add F32.one (lit 17 1000) : F32) = F32.one := by
  decide!

theorem fade_below :
    ∀ n < 59, F32.lt (clampedSteps (lit 17 1000) (F32.fin 0) n) F32.one = true :=
  fun n hn => (fade_table.1 n hn).1

theorem fade_at59 : clampedSteps (lit 17 1000) (F32.fin 0) 59 = F32.one := fade_table.2.1

theorem fade_fix : fmin (lit 1 1) (add F32.one (lit 17 1000) : F32) = F32.one :=
  fade_table.2.2

theorem fade_near :
    ∀ n < 59, F32.near (clampedSteps (lit 17 1000) (F32.fin 0) n) (17 * n) 1000 = true :=
  fun n hn => (fade_table.1 n hn).2.1

theorem fade_mono :
    ∀ n < 59, F32.ge (clampedSteps (lit 17 1000) (F32.fin 0) (n + 1)) (clampedSteps (lit 17 1000) (F32.fin 0) n) = true :=
  fun n hn => (fade_table.1 n hn).2.2.1

theorem fade_nonneg :
    ∀ n < 59, F32.ge (clampedSteps (lit 17 1000) (F32.fin 0) n) (F32.fin 0) = true :=
  fun n hn => (fade_table.1 n hn).2.2.2

/-- The first 23 values of the sequence, evaluated once. -/
theorem text_table :
    (∀ n < 23, F32.lt (clampedSteps (lit 45 1000) (F32.fin 0) n) F32.one = true ∧
      F32.near (clampedSteps (lit 45 1000) (F32.fin 0) n) (45 * n) 1000 = true ∧
      F32.ge (clampedSteps (lit 45 1000) (F32.fin 0) (n + 1)) (clampedSteps (lit 45 1000) (F32.fin 0) n) = true ∧
      F32.ge (clampedSteps (lit 45 1000) (F32.fin 0) n) (F32.fin 0) = true) ∧
    clampedSteps (lit 45 1000) (F32.fin 0) 23 = F32.one ∧
    fmin (lit 1 1) (add F32.one (lit 45 1000) : F32) = F32.one := by
  decide!

theorem text_below :
    ∀ n < 23, F32.lt (clampedSteps (lit 45 1000) (F32.fin 0) n) F32.one = true :=
  fun n hn => (text_table.1 n hn).1

theorem text_at23 : clampedSteps (lit 45 1000) (F32.fin 0) 23 = F32.one := text_table.2.1

theorem text_fix : fmin (lit 1 1) (add F32.one (lit 45 1000) : F32) = F32.one :=
  text_table.2.2

theorem text_near :
    ∀ n < 23, F32.near (clampedSteps (lit 45 1000) (F32.fin 0) n) (45 * n) 1000 = true :=
  fun n hn => (text_table.1 n hn).2.1

theorem text_mono :
    ∀ n < 23, F32.ge (clampedSteps (lit 45 1000) (F32.fin 0) (n + 1)) (clampedSteps (lit 45 1000) (F32.fin 0) n) = true :=
  fun n hn => (text_table.1 n hn).2.2.1

theorem text_nonneg :
    ∀ n < 23, F32.ge (clampedSteps (lit 45 1000) (F32.fin 0) n) (F32.fin 0) = true :=
  fun n hn => (text_table.1 n hn).2.2.2

/-- The first 101 values of the sequence, evaluated once. -/
theorem loading_table :
    (∀ n < 101, F32.lt (clampedSteps (lit 1 100) (F32.fin 0) n) F32.one = true ∧
      F32.near (clampedSteps (lit 1 100) (F32.fin 0) n) (10 * n) 1000 = true ∧
      F32.ge (clampedSteps (lit 1 100) (F32.fin 0) (n + 1)) (clampedSteps (lit 1 100) (F32.fin 0) n) = true ∧
      F32.ge (clampedSteps (lit 1 100) (F32.fin 0) n) (F32.fin 0) = true) ∧
    clampedSteps (lit 1 100) (F32.fin 0) 101 = F32.one ∧
    fmin (lit 1 1) (add F32.one (lit 1 100) : F32) = F32.one := by
  decide!

theorem loading_below :
    ∀ n < 101, F32.lt (clampedSteps (lit 1 100) (F32.fin 0) n) F32.one = true :=
  fun n hn => (loading_table.1 n hn).1

theorem loading_at101 : clampedSteps (lit 1 100) (F32.fin 0) 101 = F32.one := loading_table.2.1

theorem loading_fix : fmin (lit 1 1) (add F32.one (lit 1 100) : F32) = F32.one :=
  loading_table.2.2

theorem loading_near :
    ∀ n < 101, F32.near (clampedSteps (lit 1 100) (F32.fin 0) n) (10 * n) 1000 = true :=
  fun n hn => (loading_table.1 n hn).2.1

theorem loading_mono :
    ∀ n < 101, F32.ge (clampedSteps (lit 1 100) (F32.fin 0) (n + 1)) (clampedSteps (lit 1 100) (F32.fin 0) n) = true :=
  fun n hn => (loading_table.1 n hn).2.2.1

theorem loading_nonneg :
    ∀ n < 101, F32.ge (clampedSteps (lit 1 100) (F32.fin 0) n) (F32.fin 0) = true :=
  fun n hn => (loading_table.1 n hn).2.2.2

theorem loading_at100 :
    clampedSteps (lit 1 100) (F32.fin 0) 100 = F32.fin (16777205 * 2 ^ 125) := by decide!

/-- Closeness of a clamped binary32 progress value to its exact counterpart. -/
theorem clamped_near (step : F32) (N c : Nat) (n : Nat)
    (hnear : ∀ k < N, F32.near (clampedSteps step (F32.fin 0) k) (c * k) 1000 = true)
    (hge : N ≤ n → clampedSteps step (F32.fin 0) n = F32.one)
    (hlo : ∀ k < N, c * k < 1000) (hhi : 1000 ≤ c * N) :
    |F32.val (clampedSteps step (F32.fin 0) n) - min 1 ((c : ℚ) / 1000 * n)| ≤ 1 / 1000000 := by
  by_cases hk : n < N
  · have h1 := F32.near_val _ _ 1000 (by norm_num) (hnear n hk)
    have h2 : ((c : ℚ) / 1000 * n) ≤ 1 := by
      have : ((c * n : Nat) : ℚ) < 1000 := by exact_mod_cast hlo n hk
      push_cast at this; linarith
    rw [min_eq_right h2]
    have e : ((c * n : Nat) : ℚ) / ((1000 : Nat) : ℚ) = (c : ℚ) / 1000 * n := by
      push_cast; ring
    rw [e] at h1; exact h1
  · have h3 : N ≤ n := by omega
    rw [hge h3, val_one]
    have h2 : (1 : ℚ) ≤ (c : ℚ) / 1000 * n := by
      have : ((1000 : Nat) : ℚ) ≤ ((c * n : Nat) : ℚ) := by
        exact_mod_cast le_trans hhi (Nat.mul_le_mul_left c h3)
      push_cast at this; linarith
    rw [min_eq_left h2]; norm_num

end F32Facts

/-! ## Facts about the window procedure -/

section HostFacts

open FloatArith

variable {F : Type} [FloatArith F]

theorem performAll_nil (h : Host) : h.performAll [] = h := rfl

theorem performAll_cons (h : Host) (e : Effect) (es : List Effect) :
    h.performAll (e :: es) = (h.perform e).performAll es := rfl

omit [FloatArith F] in
theorem performAll_paint_pos (h : Host) (w : LoginWindow F) :
    (h.performAll (UpdateLayeredBitmap w)).windowPos = h.windowPos := by
  unfold UpdateLayeredBitmap; split <;> rfl

theorem fade_drag (s : LoginWindow F) (inp : TickInput F) :
    (FadeInEffect s inp).1.isDragging = s.isDragging ∧
    (FadeInEffect s inp).1.dragStartPoint = s.dragStartPoint ∧
    (FadeInEffect s inp).1.windowStartPoint = s.windowStartPoint := by
  have h : ∀ (now : TimePoint) (tw : F),
      (UpdateImageMovement s now tw).isDragging = s.isDragging ∧
      (UpdateImageMovement s now tw).dragStartPoint = s.dragStartPoint ∧
      (UpdateImageMovement s now tw).windowStartPoint = s.windowStartPoint := by
    intro now tw
    unfold UpdateImageMovement; split
    · exact ⟨rfl, rfl, rfl⟩
    · split
      · dsimp only; split <;> exact ⟨rfl, rfl, rfl⟩
      · split <;> exact ⟨rfl, rfl, rfl⟩
      · exact ⟨rfl, rfl, rfl⟩
  rw [fadeIn_eq]; split_ifs <;> exact h _ _

/-- A message other than button-down and button-up leaves the drag state of the
window object as it is. -/
theorem dispatch_drag (sys : Sys F) (m : Msg F) (hm : isButtonMsg m = false) :
    (dispatch sys m).win.isDragging = sys.win.isDragging ∧
    (dispatch sys m).win.dragStartPoint = sys.win.dragStartPoint ∧
    (dispatch sys m).win.windowStartPoint = sys.win.windowStartPoint := by
  cases m with
  | WM_CREATE => exact ⟨rfl, rfl, rfl⟩
  | WM_TIMER wParam inp =>
    simp only [dispatch]
    split
    · simp only [WndProc]
      split
      · exact fade_drag _ _
      · split <;> exact ⟨rfl, rfl, rfl⟩
    · exact ⟨rfl, rfl, rfl⟩
  | WM_LBUTTONDOWN l => simp [isButtonMsg] at hm
  | WM_MOUSEMOVE l =>
    simp only [dispatch, WndProc]
    split <;> exact ⟨rfl, rfl, rfl⟩
  | WM_LBUTTONUP => simp [isButtonMsg] at hm
  | WM_PAINT => exact ⟨rfl, rfl, rfl⟩
  | WM_DESTROY => exact ⟨rfl, rfl, rfl⟩

theorem runMessages_drag (sys : Sys F) (ms : List (Msg F))
    (hm : ∀ m ∈ ms, isButtonMsg m = false) :
    (runMessages sys ms).win.isDragging = sys.win.isDragging ∧
    (runMessages sys ms).win.dragStartPoint = sys.win.dragStartPoint ∧
    (runMessages sys ms).win.windowStartPoint = sys.win.windowStartPoint := by
  induction ms generalizing sys with
  | nil => exact ⟨rfl, rfl, rfl⟩
  | cons a t ih =>
    have h1 := dispatch_drag sys a (hm a (List.mem_cons_self _ _))
    have h2 := ih (dispatch sys a) (fun m h => hm m (List.mem_cons_of_mem _ h))
    simp only [runMessages, List.foldl_cons] at h2 ⊢
    exact ⟨h2.1.trans h1.1, h2.2.1.trans h1.2.1, h2.2.2.trans h1.2.2⟩

theorem mouseMove_dragging (sys : Sys F) (l : Nat) (h : sys.win.isDragging = true) :
    (WndProc sys (Msg.WM_MOUSEMOVE l)).host.windowPos =
      ⟨wrapInt32 (sys.win.windowStartPoint.x +
          wrapInt32 ((pointOfLParam l).x - sys.win.dragStartPoint.x)),
        wrapInt32 (sys.win.windowStartPoint.y +
          wrapInt32 ((pointOfLParam l).y - sys.win.dragStartPoint.y))⟩ := by
  simp only [WndProc, h, if_true, performAll_cons]
  rw [performAll_paint_pos]; rfl

omit [FloatArith F] in
/-- Decoding the `lParam` of a mouse message gives the cursor position relative
to the window's corner, as long as the cursor is over the window. -/
theorem pointOfLParam_mouse (c o : POINT)
    (hx : 0 ≤ c.x - o.x ∧ c.x - o.x < 65536) (hy : 0 ≤ c.y - o.y ∧ c.y - o.y < 65536) :
    pointOfLParam (mouseLParam c o) = ⟨c.x - o.x, c.y - o.y⟩ := by
  unfold pointOfLParam mouseLParam
  congr 1 <;> omega

omit [FloatArith F] in
theorem wrapInt32_id (x : Int) (h : -(2 ^ 31) ≤ x ∧ x < 2 ^ 31) : wrapInt32 x = x := by
  unfold wrapInt32; omega

/-- What the drag handling does, in screen points.  The button goes down with
the cursor at `c0` over the window, whose corner is then at `w0`; messages other
than button-down and button-up follow (mouse moves, timer ticks), after which
the corner is at `w`; then the cursor is at `c1` over the window and the window
receives the mouse move.  The window is put at `w0 + (c1 - c0) - (w - w0)`: the
offset of the cursor since button-down, less what the window has already moved,
because the coordinates in `lParam` are relative to the window. -/
theorem drag_in_screen_points (sys : Sys F) (c0 c1 : POINT) (ms : List (Msg F))
    (hm : ∀ m ∈ ms, isButtonMsg m = false)
    (hw : -(2 ^ 30) ≤ sys.host.windowPos.x ∧ sys.host.windowPos.x < 2 ^ 30 ∧
      -(2 ^ 30) ≤ sys.host.windowPos.y ∧ sys.host.windowPos.y < 2 ^ 30)
    (h0x : 0 ≤ c0.x - sys.host.windowPos.x ∧ c0.x - sys.host.windowPos.x < 65536)
    (h0y : 0 ≤ c0.y - sys.host.windowPos.y ∧ c0.y - sys.host.windowPos.y < 65536)
    (h1x : 0 ≤ c1.x - (runMessages (buttonDownAt sys c0) ms).host.windowPos.x ∧
      c1.x - (runMessages (buttonDownAt sys c0) ms).host.windowPos.x < 65536)
    (h1y : 0 ≤ c1.y - (runMessages (buttonDownAt sys c0) ms).host.windowPos.y ∧
      c1.y - (runMessages (buttonDownAt sys c0) ms).host.windowPos.y < 65536) :
    (mouseMoveAt (runMessages (buttonDownAt sys c0) ms) c1).host.windowPos =
      ⟨sys.host.windowPos.x + (c1.x - c0.x) -
          ((runMessages (buttonDownAt sys c0) ms).host.windowPos.x - sys.host.windowPos.x),
        sys.host.windowPos.y + (c1.y - c0.y) -
          ((runMessages (buttonDownAt sys c0) ms).host.windowPos.y - sys.host.windowPos.y)⟩ := by
  have h := runMessages_drag (buttonDownAt sys c0) ms hm
  have hd : (buttonDownAt sys c0).win.isDragging = true := rfl
  have hs : (buttonDownAt sys c0).win.dragStartPoint =
      ⟨c0.x - sys.host.windowPos.x, c0.y - sys.host.windowPos.y⟩ :=
    pointOfLParam_mouse c0 sys.host.windowPos h0x h0y
  have hws : (buttonDownAt sys c0).win.windowStartPoint = sys.host.windowPos := rfl
  unfold mouseMoveAt
  rw [mouseMove_dragging _ _ (h.1.trans hd), h.2.1, h.2.2, hs, hws,
    pointOfLParam_mouse c1 _ h1x h1y]
  generalize (runMessages (buttonDownAt sys c0) ms).host.windowPos = w at h1x h1y ⊢
  dsimp only
  rw [wrapInt32_id (c1.x - w.x - (c0.x - sys.host.windowPos.x)) (by omega),
    wrapInt32_id (c1.y - w.y - (c0.y - sys.host.windowPos.y)) (by omega),
    wrapInt32_id _ (by omega), wrapInt32_id _ (by omega)]
  congr 1 <;> omega

/-- The first mouse move of a drag, and any mouse move received while the window
is still where it was at button-down, puts the window at `w0 + (c1 - c0)`. -/
theorem drag_first_move (sys : Sys F) (c0 c1 : POINT)
    (hw : -(2 ^ 30) ≤ sys.host.windowPos.x ∧ sys.host.windowPos.x < 2 ^ 30 ∧
      -(2 ^ 30) ≤ sys.host.windowPos.y ∧ sys.host.windowPos.y < 2 ^ 30)
    (h0x : 0 ≤ c0.x - sys.host.windowPos.x ∧ c0.x - sys.host.windowPos.x < 65536)
    (h0y : 0 ≤ c0.y - sys.host.windowPos.y ∧ c0.y - sys.host.windowPos.y < 65536)
    (h1x : 0 ≤ c1.x - sys.host.windowPos.x ∧ c1.x - sys.host.windowPos.x < 65536)
    (h1y : 0 ≤ c1.y - sys.host.windowPos.y ∧ c1.y - sys.host.windowPos.y < 65536) :
    (mouseMoveAt (buttonDownAt sys c0) c1).host.windowPos =
      ⟨sys.host.windowPos.x + (c1.x - c0.x), sys.host.windowPos.y + (c1.y - c0.y)⟩ := by
  have h := drag_in_screen_points sys c0 c1 [] (by simp) hw h0x h0y h1x h1y
  have e : runMessages (buttonDownAt sys c0) [] = buttonDownAt sys c0 := rfl
  rw [e] at h
  rw [h]
  have e2 : (buttonDownAt sys c0).host.windowPos = sys.host.windowPos := rfl
  rw [e2]
  congr 1 <;> omega

end HostFacts

section LoadingRun

open FloatArith

theorem F32.not_ge_of_lt (a b : F32) (h : F32.lt a b = true) : F32.ge a b = false := by
  cases a <;> cases b <;> simp_all [F32.lt, F32.ge]

theorem runMessages_snoc {F : Type} [FloatArith F] (sys : Sys F) (ms : List (Msg F)) (m : Msg F) :
    runMessages sys (ms ++ [m]) = dispatch (runMessages sys ms) m := by
  simp [runMessages, List.foldl_append]

theorem paint_host {F : Type} (h : Host) (w : LoginWindow F) :
    (h.performAll (UpdateLayeredBitmap w)).timers = h.timers ∧
    (h.performAll (UpdateLayeredBitmap w)).closeRequests = h.closeRequests := by
  unfold UpdateLayeredBitmap; split <;> exact ⟨rfl, rfl⟩

/-- Once the loading-bar animation has been started, `FadeInEffect` touches
neither the timers nor the close requests, and keeps the flag. -/
theorem fade_after_start {F : Type} [FloatArith F] (s : LoginWindow F) (inp : TickInput F)
    (h : Host) (ha : s.loadingBarAnimationStarted = true) :
    (h.performAll (FadeInEffect s inp).2).timers = h.timers ∧
    (h.performAll (FadeInEffect s inp).2).closeRequests = h.closeRequests ∧
    (FadeInEffect s inp).1.loadingBarAnimationStarted = true := by
  refine ⟨?_, ?_, by rw [fade_animStarted, ha]; rfl⟩
  · rw [fadeIn_eq]
    split_ifs with h1 h2 h3
    · exact (paint_host h _).1
    · simp [afterMove_animStarted, ha] at h3
    · exact (paint_host h _).1
    · exact (paint_host h _).1
  · rw [fadeIn_eq]
    split_ifs with h1 h2 h3
    · exact (paint_host h _).2
    · simp [afterMove_animStarted, ha] at h3
    · exact (paint_host h _).2
    · exact (paint_host h _).2

theorem loading_effects {F : Type} [FloatArith F] (s : LoginWindow F) :
    (LoadingBarEffect s).2 =
      (if ge (LoadingBarEffect s).1.loadingBarProgress (lit 1 1)
        then [Effect.KillTimer 2, Effect.PostClose] else []) ++
      UpdateLayeredBitmap (LoadingBarEffect s).1 := rfl

theorem loading_host_done {F : Type} [FloatArith F] (s : LoginWindow F) (h : Host)
    (hg : ge (LoadingBarEffect s).1.loadingBarProgress (lit 1 1) = true) :
    (h.performAll (LoadingBarEffect s).2).timers 2 = false ∧
    (h.performAll (LoadingBarEffect s).2).closeRequests = h.closeRequests + 1 := by
  rw [loading_effects, if_pos hg]
  have e : ([Effect.KillTimer 2, Effect.PostClose] ++
      UpdateLayeredBitmap (LoadingBarEffect s).1) =
      Effect.KillTimer 2 :: Effect.PostClose :: UpdateLayeredBitmap (LoadingBarEffect s).1 := rfl
  rw [e, performAll_cons, performAll_cons]
  have := paint_host ((h.perform (Effect.KillTimer 2)).perform Effect.PostClose)
    (LoadingBarEffect s).1
  rw [this.1, this.2]
  simp [Host.perform]

theorem loading_host_going {F : Type} [FloatArith F] (s : LoginWindow F) (h : Host)
    (hg : ge (LoadingBarEffect s).1.loadingBarProgress (lit 1 1) = false) :
    (h.performAll (LoadingBarEffect s).2).timers 2 = h.timers 2 ∧
    (h.performAll (LoadingBarEffect s).2).closeRequests = h.closeRequests := by
  rw [loading_effects, hg]
  have := paint_host h (LoadingBarEffect s).1
  simp only [Bool.false_eq_true, if_false, List.nil_append]
  rw [this.1, this.2]
  exact ⟨rfl, rfl⟩

theorem loading_animStarted {F : Type} [FloatArith F] (s : LoginWindow F) :
    (LoadingBarEffect s).1.loadingBarAnimationStarted = s.loadingBarAnimationStarted := rfl

theorem loading_progress {F : Type} [FloatArith F] (s : LoginWindow F) :
    (LoadingBarEffect s).1.loadingBarProgress =
      fmin (lit 1 1) (add s.loadingBarProgress (lit 1 100)) := rfl

theorem loading_run (s : LoginWindow F32) (host : Host) (ms : List (Msg F32))
    (h0 : s.loadingBarProgress = lit 0 1) (ha : s.loadingBarAnimationStarted = true)
    (ht : host.timers 2 = true) (hm : ∀ m ∈ ms, isTimerMsg m = true) :
    LoadingInv host.closeRequests (runMessages ⟨s, host⟩ ms) (ms.countP isTimer2) := by
  induction ms using List.reverseRecOn with
  | nil =>
    refine ⟨ha, fun _ => ⟨?_, ht, rfl⟩, fun h => ?_⟩
    · show s.loadingBarProgress = F32.fin 0
      rw [h0, lit_zero]
    · simp at h
  | append_singleton l m ih =>
    have ih := ih (fun x hx => hm x (List.mem_append_left _ hx))
    have hmm := hm m (List.mem_append_right _ (List.mem_singleton_self m))
    rw [runMessages_snoc, List.countP_append]
    generalize runMessages ⟨s, host⟩ l = sys at ih ⊢
    generalize List.countP isTimer2 l = c at ih ⊢
    obtain ⟨i1, i2, i3⟩ := ih
    cases m with
    | WM_TIMER w inp =>
      by_cases hw : w = 2
      · subst hw
        have hc : List.countP isTimer2 [Msg.WM_TIMER 2 inp] = 1 := by
          simp [List.countP_cons, isTimer2]
        rw [hc]
        by_cases hlt : c < 101
        · obtain ⟨j1, j2, j3⟩ := i2 hlt
          have hd : dispatch sys (Msg.WM_TIMER 2 inp) =
              ⟨(LoadingBarEffect sys.win).1, sys.host.performAll (LoadingBarEffect sys.win).2⟩ := by
            simp [dispatch, j2, WndProc]
          have hp : (LoadingBarEffect sys.win).1.loadingBarProgress =
              clampedSteps (lit 1 100) (F32.fin 0) (c + 1) := by
            rw [loading_progress, j1]; rfl
          rw [hd]
          refine ⟨by rw [loading_animStarted]; exact i1, fun h => ?_, fun h => ?_⟩
          · have hb : ge (LoadingBarEffect sys.win).1.loadingBarProgress (lit 1 1 : F32) = false := by
              rw [hp, lit_one]
              exact F32.not_ge_of_lt _ _ (loading_below (c + 1) h)
            have hh := loading_host_going sys.win sys.host hb
            dsimp only
            exact ⟨hp, hh.1.trans j2, hh.2.trans j3⟩
          · have hc1 : c + 1 = 101 := by omega
            have hb : ge (LoadingBarEffect sys.win).1.loadingBarProgress (lit 1 1 : F32) = true := by
              rw [hp, hc1, loading_at101, lit_one]; decide!
            have hh := loading_host_done sys.win sys.host hb
            dsimp only
            exact ⟨hh.1, by rw [hh.2, j3]⟩
        · obtain ⟨j1, j2⟩ := i3 (by omega)
          have hd : dispatch sys (Msg.WM_TIMER 2 inp) = sys := by
            simp [dispatch, j1]
          rw [hd]
          exact ⟨i1, fun h => by omega, fun _ => ⟨j1, j2⟩⟩
      · have hc : List.countP isTimer2 [Msg.WM_TIMER w inp] = 0 := by
          simp [List.countP_cons, isTimer2, hw]
        rw [hc, Nat.add_zero]
        by_cases hw1 : w = 1
        · subst hw1
          by_cases ht1 : sys.host.timers 1 = true
          · have hd : dispatch sys (Msg.WM_TIMER 1 inp) =
                ⟨(FadeInEffect sys.win inp).1, sys.host.performAll (FadeInEffect sys.win inp).2⟩ := by
              simp [dispatch, ht1, WndProc]
            have hf := fade_after_start sys.win inp sys.host i1
            rw [hd]
            refine ⟨hf.2.2, fun h => ?_, fun h => ?_⟩
            · obtain ⟨j1, j2, j3⟩ := i2 h
              dsimp only
              rw [hf.1, hf.2.1]
              exact ⟨by rw [← j1]; exact fade_loading _ _, j2, j3⟩
            · obtain ⟨j1, j2⟩ := i3 h
              dsimp only
              rw [hf.1, hf.2.1]
              exact ⟨j1, j2⟩
          · have hd : dispatch sys (Msg.WM_TIMER 1 inp) = sys := by
              simp [dispatch, ht1]
            rw [hd]; exact ⟨i1, i2, i3⟩
        · have hd : dispatch sys (Msg.WM_TIMER w inp) = sys := by
            simp only [dispatch, WndProc, hw, hw1, if_false]
            split <;> rfl
          rw [hd]; exact ⟨i1, i2, i3⟩
    | WM_CREATE => simp [isTimerMsg] at hmm
    | WM_LBUTTONDOWN l => simp [isTimerMsg] at hmm
    | WM_MOUSEMOVE l => simp [isTimerMsg] at hmm
    | WM_LBUTTONUP => simp [isTimerMsg] at hmm
    | WM_PAINT => simp [isTimerMsg] at hmm
    | WM_DESTROY => simp [isTimerMsg] at hmm

end LoadingRun

section MoveFacts

open FloatArith MovementPhase

variable {F : Type} [FloatArith F]

theorem uim_toRight (s : LoginWindow F) (img : Bitmap) (hi : s.image = some img)
    (hp : s.movementPhase = ToRight) (now : TimePoint) (tw : F) :
    UpdateImageMovement s now tw =
      if lt (fabs (sub (Lerp s.currentImageCenterX (toRightTarget s img) (lit 1 10))
          (toRightTarget s img))) (lit 2 1) then
        { s with
          currentImageCenterX := Lerp s.currentImageCenterX (toRightTarget s img) (lit 1 10),
          movementPhase := WaitRight, waitStartTime := now }
      else
        { s with
          currentImageCenterX := Lerp s.currentImageCenterX (toRightTarget s img) (lit 1 10) } := by
  simp only [UpdateImageMovement, hi, hp]

theorem uim_toCenter (s : LoginWindow F) (img : Bitmap) (hi : s.image = some img)
    (hp : s.movementPhase = ToCenter) (now : TimePoint) (tw : F) :
    UpdateImageMovement s now tw =
      { s with
        currentImageCenterX := Lerp s.currentImageCenterX (toCenterTarget s tw) (lit 1 10) } := by
  simp only [UpdateImageMovement, hi, hp]

theorem toRightTarget_congr (s s' : LoginWindow F) (img : Bitmap)
    (h1 : s'.appWidth = s.appWidth) (h2 : s'.scale = s.scale) :
    toRightTarget s' img = toRightTarget s img := by
  simp only [toRightTarget, scaledImageWidth, h1, h2]

theorem login_fields (img : Bitmap) (d w : POINT) :
    (WinMain.login img d w : LoginWindow F).image = some img ∧
    (WinMain.login img d w : LoginWindow F).movementPhase = ToRight ∧
    (WinMain.login img d w : LoginWindow F).appWidth = 800 ∧
    (WinMain.login img d w : LoginWindow F).scale = (lit 25 100 : F) ∧
    (WinMain.login img d w : LoginWindow F).currentImageCenterX =
      (div (ofInt (toInt (mul (ofInt (img.width : Int)) (lit 25 100 : F)))) (lit 2 1) : F) :=
  ⟨rfl, rfl, rfl, rfl, rfl⟩

theorem moveTicks_snoc (s : LoginWindow F) (ins : List (TimePoint × F)) (inp : TimePoint × F) :
    moveTicks s (ins ++ [inp]) = UpdateImageMovement (moveTicks s ins) inp.1 inp.2 := by
  simp [moveTicks, List.foldl_append]

end MoveFacts

section ExactFacts

open FloatArith MovementPhase

theorem lerpQ (a b : ℚ) : Lerp a b (lit 1 10) = a + (b - a) * (1 / 10) := by
  show a + (b - a) * (((1 : ℕ) : ℚ) / ((10 : ℕ) : ℚ)) = _
  norm_num

theorem ltQ (a : ℚ) : (lt (fabs a) (lit 2 1 : ℚ) = true) ↔ |a| < 2 := by
  show decide (|a| < ((2 : ℕ) : ℚ) / ((1 : ℕ) : ℚ)) = true ↔ _
  simp

theorem toCenterTargetQ (s : LoginWindow ℚ) (tw : ℚ) :
    toCenterTarget s tw = (s.appWidth : ℚ) / 2 := by
  show ((s.appWidth : ℚ) - tw) / (((2 : ℕ) : ℚ) / ((1 : ℕ) : ℚ)) +
    tw / (((2 : ℕ) : ℚ) / ((1 : ℕ) : ℚ)) = _
  norm_num
  ring

/-- One `ToRight` step in exact arithmetic. -/
theorem stepQ_toRight (s : LoginWindow ℚ) (img : Bitmap) (hi : s.image = some img)
    (hp : s.movementPhase = ToRight) (now : TimePoint) (tw : ℚ) :
    (UpdateImageMovement s now tw).currentImageCenterX =
      s.currentImageCenterX + (toRightTarget s img - s.currentImageCenterX) * (1 / 10) ∧
    (UpdateImageMovement s now tw).currentImageCenterX - toRightTarget s img =
      9 / 10 * (s.currentImageCenterX - toRightTarget s img) ∧
    (|9 / 10 * (s.currentImageCenterX - toRightTarget s img)| < 2 →
      (UpdateImageMovement s now tw).movementPhase = WaitRight ∧
      (UpdateImageMovement s now tw).waitStartTime = now) ∧
    (¬ |9 / 10 * (s.currentImageCenterX - toRightTarget s img)| < 2 →
      (UpdateImageMovement s now tw).movementPhase = ToRight) := by
  have e : s.currentImageCenterX + (toRightTarget s img - s.currentImageCenterX) * (1 / 10) -
      toRightTarget s img = 9 / 10 * (s.currentImageCenterX - toRightTarget s img) := by ring
  have hc : (UpdateImageMovement s now tw).currentImageCenterX =
      s.currentImageCenterX + (toRightTarget s img - s.currentImageCenterX) * (1 / 10) := by
    rw [uim_toRight s img hi hp, ← lerpQ]; split <;> rfl
  have hl : (lt (fabs (sub (Lerp s.currentImageCenterX (toRightTarget s img) (lit 1 10))
      (toRightTarget s img))) (lit 2 1 : ℚ) = true) ↔
      |9 / 10 * (s.currentImageCenterX - toRightTarget s img)| < 2 := by
    rw [ltQ, lerpQ, ← e]; rfl
  refine ⟨hc, by rw [hc, e], fun h => ?_, fun h => ?_⟩
  · rw [uim_toRight s img hi hp, if_pos (hl.2 h)]; exact ⟨rfl, rfl⟩
  · rw [uim_toRight s img hi hp, if_neg (fun h' => h (hl.1 h'))]; exact hp

theorem abs_pow_mul (n : Nat) (d : ℚ) : |(9 / 10 : ℚ) ^ n * d| = (9 / 10) ^ n * |d| := by
  rw [abs_mul, abs_of_nonneg (by positivity)]

/-- The `ToRight` part of a run in exact arithmetic: as long as the distance
`0.9^m |x0 - T|` stays at least 2, the phase stays `ToRight` and the centre
follows the closed form. -/
theorem toRight_run (s : LoginWindow ℚ) (img : Bitmap) (hi : s.image = some img)
    (hp : s.movementPhase = ToRight) (ins : List (TimePoint × ℚ))
    (hfar : ∀ m, 1 ≤ m → m ≤ ins.length →
      2 ≤ (9 / 10 : ℚ) ^ m * |s.currentImageCenterX - toRightTarget s img|) :
    (moveTicks s ins).movementPhase = ToRight ∧
    (moveTicks s ins).currentImageCenterX = toRightTarget s img +
      (9 / 10) ^ ins.length * (s.currentImageCenterX - toRightTarget s img) ∧
    (moveTicks s ins).image = some img ∧
    toRightTarget (moveTicks s ins) img = toRightTarget s img := by
  induction ins using List.reverseRecOn with
  | nil => exact ⟨hp, by simp [moveTicks], hi, rfl⟩
  | append_singleton l a ih =>
    have hlen : (l ++ [a]).length = l.length + 1 := by simp
    obtain ⟨i1, i2, i3, i4⟩ := ih (fun m h1 h2 => hfar m h1 (by rw [hlen]; omega))
    have st := stepQ_toRight (moveTicks s l) img i3 i1 a.1 a.2
    rw [i4, i2] at st
    have e : (9 / 10 : ℚ) * (toRightTarget s img +
        (9 / 10) ^ l.length * (s.currentImageCenterX - toRightTarget s img) -
        toRightTarget s img) =
        (9 / 10) ^ (l.length + 1) * (s.currentImageCenterX - toRightTarget s img) := by
      rw [pow_succ]; ring
    rw [e] at st
    have hnot : ¬ |(9 / 10 : ℚ) ^ (l.length + 1) *
        (s.currentImageCenterX - toRightTarget s img)| < 2 := by
      rw [abs_pow_mul]
      exact not_lt.2 (hfar (l.length + 1) (by omega) (by rw [hlen]))
    rw [moveTicks_snoc, hlen]
    refine ⟨st.2.2.2 hnot, by linarith [st.2.1], ?_, ?_⟩
    · rw [uim_image, i3]
    · rw [toRightTarget_congr (moveTicks s l) _ img (uim_appWidth _ _ _) (uim_scale _ _ _), i4]

/-- The tick that ends the `ToRight` part of a run in exact arithmetic. -/
theorem toRight_leave (s : LoginWindow ℚ) (img : Bitmap) (hi : s.image = some img)
    (hp : s.movementPhase = ToRight) (ins : List (TimePoint × ℚ)) (inp : TimePoint × ℚ)
    (hfar : ∀ m, 1 ≤ m → m ≤ ins.length →
      2 ≤ (9 / 10 : ℚ) ^ m * |s.currentImageCenterX - toRightTarget s img|)
    (hnear : (9 / 10 : ℚ) ^ (ins.length + 1) *
      |s.currentImageCenterX - toRightTarget s img| < 2) :
    (moveTicks s (ins ++ [inp])).movementPhase = WaitRight ∧
    (moveTicks s (ins ++ [inp])).currentImageCenterX = toRightTarget s img +
      (9 / 10) ^ (ins.length + 1) * (s.currentImageCenterX - toRightTarget s img) ∧
    (moveTicks s (ins ++ [inp])).waitStartTime = inp.1 := by
  obtain ⟨i1, i2, i3, i4⟩ := toRight_run s img hi hp ins hfar
  have st := stepQ_toRight (moveTicks s ins) img i3 i1 inp.1 inp.2
  rw [i4, i2] at st
  have e : (9 / 10 : ℚ) * (toRightTarget s img +
      (9 / 10) ^ ins.length * (s.currentImageCenterX - toRightTarget s img) -
      toRightTarget s img) =
      (9 / 10) ^ (ins.length + 1) * (s.currentImageCenterX - toRightTarget s img) := by
    rw [pow_succ]; ring
  rw [e] at st
  have hn : |(9 / 10 : ℚ) ^ (ins.length + 1) *
      (s.currentImageCenterX - toRightTarget s img)| < 2 := by
    rw [abs_pow_mul]; exact hnear
  rw [moveTicks_snoc]
  exact ⟨(st.2.2.1 hn).1, by linarith [st.2.1], (st.2.2.1 hn).2⟩

/-- Some power of `0.9` brings any distance below 2. -/
theorem exists_near (d : ℚ) (hd : 0 ≤ d) : ∃ n, 1 ≤ n ∧ (9 / 10 : ℚ) ^ n * d < 2 := by
  obtain ⟨n, hn⟩ := exists_pow_lt_of_lt_one (show (0 : ℚ) < 2 / (d + 1) by positivity)
    (show (9 / 10 : ℚ) < 1 by norm_num)
  refine ⟨n + 1, by omega, ?_⟩
  have h1 : (9 / 10 : ℚ) ^ (n + 1) ≤ (9 / 10) ^ n := by
    rw [pow_succ]
    have : (0 : ℚ) ≤ (9 / 10) ^ n := by positivity
    linarith
  have h2 : (9 / 10 : ℚ) ^ n * (d + 1) < 2 := by
    rwa [lt_div_iff₀ (by linarith)] at hn
  have h3 : (0 : ℚ) ≤ (9 / 10) ^ n := by positivity
  nlinarith

end ExactFacts

section ExactFacts2

open FloatArith MovementPhase

theorem toRightTargetQ (s : LoginWindow ℚ) (img : Bitmap) :
    toRightTarget s img =
      (s.appWidth : ℚ) - (truncQ ((img.width : ℚ) * s.scale) : ℚ) * (13 / 10) := by
  show (s.appWidth : ℚ) - ((truncQ ((((img.width : ℕ) : ℤ) : ℚ) * s.scale) : ℤ) : ℚ) *
    (((13 : ℕ) : ℚ) / ((10 : ℕ) : ℚ)) = _
  norm_num

theorem addQ (a b : ℚ) : add a b = a + b := rfl

theorem subQ (a b : ℚ) : sub a b = a - b := rfl

theorem mulQ (a b : ℚ) : mul a b = a * b := rfl

theorem divQ (a b : ℚ) : div a b = a / b := rfl

theorem ofIntQ (i : Int) : (ofInt i : ℚ) = (i : ℚ) := rfl

theorem litQ (n d : Nat) : (lit n d : ℚ) = (n : ℚ) / (d : ℚ) := rfl

theorem toIntQ (a : ℚ) : toInt a = truncQ a := rfl

theorem truncQ_100 : truncQ ((400 : ℚ) * (25 / 100)) = 100 := by
  have e : ((400 : ℚ) * (25 / 100)) = ((100 : ℤ) : ℚ) := by norm_num
  rw [e]; simp [truncQ]

/-- The window object of `WinMain` for a 400 pixel wide image, in exact
arithmetic: scaled width 100, start centre 50, `ToRight` target 670. -/
theorem loginQ_facts (img : Bitmap) (hw : img.width = 400) (d w : POINT) :
    (WinMain.login img d w : LoginWindow ℚ).image = some img ∧
    (WinMain.login img d w : LoginWindow ℚ).movementPhase = ToRight ∧
    scaledImageWidth (WinMain.login img d w : LoginWindow ℚ) img = 100 ∧
    (WinMain.login img d w : LoginWindow ℚ).currentImageCenterX = 50 ∧
    toRightTarget (WinMain.login img d w : LoginWindow ℚ) img = 670 := by
  obtain ⟨f1, f2, f3, f4, f5⟩ := login_fields (F := ℚ) img d w
  have e : ((((400 : ℕ) : ℤ) : ℚ) * (((25 : ℕ) : ℚ) / ((100 : ℕ) : ℚ))) =
      (400 : ℚ) * (25 / 100) := by norm_num
  have sc : scaledImageWidth (WinMain.login img d w : LoginWindow ℚ) img = 100 := by
    unfold scaledImageWidth
    rw [f4, hw, toIntQ, mulQ, ofIntQ, litQ, e, truncQ_100]
  refine ⟨f1, f2, sc, ?_, ?_⟩
  · rw [f5, hw, divQ, ofIntQ, toIntQ, mulQ, ofIntQ, litQ, litQ, e, truncQ_100]
    norm_num
  · unfold toRightTarget
    rw [sc, f3, subQ, mulQ, ofIntQ, ofIntQ, litQ]
    norm_num

theorem far54 (m : Nat) (hm : m ≤ 54) : 2 ≤ (9 / 10 : ℚ) ^ m * |(50 : ℚ) - 670| := by
  have h1 : (9 / 10 : ℚ) ^ 54 ≤ (9 / 10) ^ m :=
    pow_le_pow_of_le_one (by norm_num) (by norm_num) hm
  have h2 : |(50 : ℚ) - 670| = 620 := by norm_num [abs_of_neg]
  have h3 : (2 : ℚ) ≤ (9 / 10) ^ 54 * 620 := by norm_num
  rw [h2]; linarith

theorem near55 : (9 / 10 : ℚ) ^ 55 * |(50 : ℚ) - 670| < 2 := by
  have h2 : |(50 : ℚ) - 670| = 620 := by norm_num [abs_of_neg]
  rw [h2]; norm_num

end ExactFacts2

/-! ## The same run in binary32

Two statements of exact arithmetic, checked on the binary32 run of the
400 x 300 image: the `ToRight` phase also ends on tick 55, and the `ToCenter`
target is also exactly 400 for a sample of text widths.  For an
absurd text width of `2^31` pixels the binary32 target is 384: the identity
`(a - w) / 2 + w / 2 = a / 2` is one of exact arithmetic only. -/

section Binary32Run

open FloatArith MovementPhase

theorem binary32_leaves_ToRight_on_tick_55 :
    phaseTrace demoLogin (demoRun 55) = List.replicate 55 ToRight ++ [WaitRight] := by
  decide!

theorem binary32_toCenter_target_sample_widths :
    ∀ w ∈ [(0 : Int), 1, 17, 150, 299, 300, 301, 333, 640, 799, 800, 1201],
      toCenterTarget demoLogin (F32.ofInt w) = F32.ofInt 400 := by
  decide!

theorem binary32_toCenter_target_huge_width :
    toCenterTarget demoLogin (F32.ofInt (2 ^ 31)) = F32.ofInt 384 := by
  decide!

end Binary32Run

/-! ## The claims -/

section Claims

open FloatArith MovementPhase

/-- C3. The movement phase only moves forward.  One call of
`UpdateImageMovement`, and one call of `FadeInEffect`, either leaves
`movementPhase` unchanged or advances it by exactly one step, `ToRight` to
`WaitRight` or `WaitRight` to `ToCenter`.  Hence along every run of ticks the
position of the phase in the order `ToRight`, `WaitRight`, `ToCenter` never
decreases: `ToCenter` is never left, `ToRight` is never re-entered, and
`WaitRight` is never re-entered once it has been left. -/
theorem C3_phase_forward {F : Type} [FloatArith F] :
    (∀ (s : LoginWindow F) (now : TimePoint) (tw : F),
      (UpdateImageMovement s now tw).movementPhase = s.movementPhase ∨
      (s.movementPhase = ToRight ∧ (UpdateImageMovement s now tw).movementPhase = WaitRight) ∨
      (s.movementPhase = WaitRight ∧ (UpdateImageMovement s now tw).movementPhase = ToCenter)) ∧
    (∀ (s : LoginWindow F) (inp : TickInput F),
      (FadeInEffect s inp).1.movementPhase = s.movementPhase ∨
      (s.movementPhase = ToRight ∧ (FadeInEffect s inp).1.movementPhase = WaitRight) ∨
      (s.movementPhase = WaitRight ∧ (FadeInEffect s inp).1.movementPhase = ToCenter)) ∧
    (∀ (s : LoginWindow F) (ins : List (TickInput F)) (i j : Nat), i ≤ j →
      (fadeTicks s (ins.take i)).movementPhase.rank ≤
        (fadeTicks s (ins.take j)).movementPhase.rank) ∧
    (∀ (s : LoginWindow F) (ins : List (TickInput F)) (i j : Nat), i ≤ j →
      (fadeTicks s (ins.take i)).movementPhase = ToCenter →
        (fadeTicks s (ins.take j)).movementPhase = ToCenter) ∧
    (∀ (s : LoginWindow F) (ins : List (TickInput F)) (i j : Nat), i ≤ j →
      (fadeTicks s (ins.take i)).movementPhase ≠ ToRight →
        (fadeTicks s (ins.take j)).movementPhase ≠ ToRight) ∧
    (∀ (s : LoginWindow F) (ins : List (TickInput F)) (i k j : Nat), i ≤ k → k ≤ j →
      (fadeTicks s (ins.take i)).movementPhase = WaitRight →
      (fadeTicks s (ins.take k)).movementPhase ≠ WaitRight →
        (fadeTicks s (ins.take j)).movementPhase ≠ WaitRight) := by
  refine ⟨uim_phase_step, fade_phase_step, fun s ins i j h => rank_mono_run s ins h, ?_, ?_, ?_⟩
  · intro s ins i j h hi
    have := rank_mono_run s ins h
    rw [hi] at this
    revert this
    cases (fadeTicks s (List.take j ins)).movementPhase <;> simp [MovementPhase.rank]
  · intro s ins i j h hi
    have := rank_mono_run s ins h
    revert this hi
    cases (fadeTicks s (List.take i ins)).movementPhase <;>
      cases (fadeTicks s (List.take j ins)).movementPhase <;> simp [MovementPhase.rank]
  · intro s ins i k j h1 h2 hi hk
    have a := rank_mono_run s ins h1
    have b := rank_mono_run s ins h2
    rw [hi] at a
    revert a b hk
    cases (fadeTicks s (List.take k ins)).movementPhase <;>
      cases (fadeTicks s (List.take j ins)).movementPhase <;> simp [MovementPhase.rank]

/-- C3, on the 20 ms run of the 1776 x 1000 image: the phase is `ToCenter` after
26 ticks, hence still `ToCenter` after 27. -/
theorem C3_phase_forward_witness :
    26 ≤ 27 ∧ (fadeTicks wideLogin ((demoRun 27).take 26)).movementPhase = ToCenter ∧
      (fadeTicks wideLogin ((demoRun 27).take 27)).movementPhase = ToCenter :=
  ⟨by decide, by decide!,
    C3_phase_forward.2.2.2.1 wideLogin (demoRun 27) 26 27 (by decide) (by decide!)⟩

/-- C4. In every run of ticks from a state in phase `ToRight` (with the
constructor's `waitDuration` of 500 ms), whatever the clock readings and the
tick spacing: a tick on which the phase changes from `WaitRight` to `ToCenter`
reads a time at least 500 ms (500000000 ns) after `waitStartTime`, and
`waitStartTime` is the clock reading of the earlier tick that changed the phase
from `ToRight` to `WaitRight`; the image centre has not changed since that
tick.  In any state, a call made in phase `WaitRight` leaves
`currentImageCenterX` unchanged. -/
theorem C4_wait_lasts_500ms {F : Type} [FloatArith F] (s : LoginWindow F)
    (hs : s.movementPhase = ToRight) (hw : s.waitDuration = 500) :
    (∀ (pre : List (TickInput F)) (inp : TickInput F),
      (fadeTicks s pre).movementPhase = WaitRight →
      (fadeTicks s (pre ++ [inp])).movementPhase = ToCenter →
      500000000 ≤ inp.nowMove - (fadeTicks s pre).waitStartTime ∧
      ∃ pre1 inp1 rest, pre = pre1 ++ inp1 :: rest ∧
        (fadeTicks s pre1).movementPhase = ToRight ∧
        (fadeTicks s (pre1 ++ [inp1])).movementPhase = WaitRight ∧
        (fadeTicks s pre).waitStartTime = inp1.nowMove ∧
        500000000 ≤ inp.nowMove - inp1.nowMove ∧
        (fadeTicks s pre).currentImageCenterX =
          (fadeTicks s (pre1 ++ [inp1])).currentImageCenterX) ∧
    (∀ (st : LoginWindow F) (now : TimePoint) (tw : F), st.movementPhase = WaitRight →
      (UpdateImageMovement st now tw).currentImageCenterX = st.currentImageCenterX) ∧
    (∀ (st : LoginWindow F) (inp : TickInput F), st.movementPhase = WaitRight →
      (FadeInEffect st inp).1.currentImageCenterX = st.currentImageCenterX) := by
  refine ⟨?_, fun st now tw h => uim_wait_center st now tw h, ?_⟩
  · intro pre inp h1 h2
    rw [fadeTicks_snoc, fade_phase] at h2
    have h3 := uim_leave_wait _ _ _ h1 h2
    rw [fadeTicks_waitDuration, hw] at h3
    obtain ⟨pre1, inp1, rest, e, p1, p2, p3, p4⟩ := wait_entry s hs pre h1
    refine ⟨by linarith, pre1, inp1, rest, e, p1, p2, p3, ?_, p4⟩
    rw [← p3]; linarith
  · intro st inp h
    rw [fade_center]; exact uim_wait_center st _ _ h

/-- C4, on the 20 ms run of the 1776 x 1000 image (which enters `WaitRight` on
the first tick, at 20 ms): the phase is `WaitRight` after 25 ticks and `ToCenter`
after the tick at 520 ms, so that tick is at least 500 ms after the recorded
`waitStartTime`. -/
theorem C4_wait_lasts_500ms_witness :
    wideLogin.movementPhase = ToRight ∧ wideLogin.waitDuration = 500 ∧
    (fadeTicks wideLogin (demoRun 25)).movementPhase = WaitRight ∧
    (fadeTicks wideLogin (demoRun 25 ++ [demoTick 520])).movementPhase = ToCenter ∧
    500000000 ≤ (demoTick 520).nowMove - (fadeTicks wideLogin (demoRun 25)).waitStartTime :=
  ⟨(login_fields _ _ _).2.1, rfl, by decide!, by decide!,
    ((C4_wait_lasts_500ms wideLogin (login_fields _ _ _).2.1 rfl).1 (demoRun 25) (demoTick 520)
      (by decide!) (by decide!)).1⟩

/-- C5. In every run of `FadeInEffect` ticks from a state in which
`loadingBarDelayStarted` is still false (as the constructor leaves it), whatever
the clock readings:
(1) a tick assigns `loadingBarDelayStart` exactly when, at its end,
`fadeProgress >= 1`, `textRevealProgress >= 1` and `movementPhase = ToCenter`
all hold and they held together at the end of no earlier tick;
(2) so at most one tick assigns it;
(3) the value assigned is that tick's clock reading and it is kept for the rest
of the run;
(4) a tick on which `loadingBarAnimationStarted` becomes true comes strictly
after the tick that assigned `loadingBarDelayStart`, reads a time at least
2000 ms (2000000000 ns) after the value recorded there, and starts timer 2;
(5) timer 2 is started exactly on such a tick, and
(6) on at most one tick of the run. -/
theorem C5_loading_bar_delay {F : Type} [FloatArith F] (s : LoginWindow F)
    (hd : s.loadingBarDelayStarted = false) :
    (∀ (pre : List (TickInput F)) (inp : TickInput F),
      setsDelayStart (fadeTicks s pre) inp = true ↔
        (allAnimationsDone (fadeTicks s (pre ++ [inp])) = true ∧
          ∀ pre' inp' rest, pre = pre' ++ inp' :: rest →
            allAnimationsDone (fadeTicks s (pre' ++ [inp'])) = false)) ∧
    (∀ (pre mid : List (TickInput F)) (inp inp2 : TickInput F),
      setsDelayStart (fadeTicks s pre) inp = true →
        setsDelayStart (fadeTicks s (pre ++ inp :: mid)) inp2 = false) ∧
    (∀ (pre post : List (TickInput F)) (inp : TickInput F),
      setsDelayStart (fadeTicks s pre) inp = true →
        (fadeTicks s (pre ++ inp :: post)).loadingBarDelayStart = inp.nowDelay) ∧
    (∀ (pre : List (TickInput F)) (inp : TickInput F),
      (fadeTicks s pre).loadingBarAnimationStarted = false →
      (fadeTicks s (pre ++ [inp])).loadingBarAnimationStarted = true →
        Effect.SetTimer 2 20 ∈ (FadeInEffect (fadeTicks s pre) inp).2 ∧
        ∃ pre1 inp1 rest, pre = pre1 ++ inp1 :: rest ∧
          setsDelayStart (fadeTicks s pre1) inp1 = true ∧
          (fadeTicks s pre).loadingBarDelayStart = inp1.nowDelay ∧
          2000000000 ≤ inp.nowDelay - inp1.nowDelay) ∧
    (∀ (pre : List (TickInput F)) (inp : TickInput F),
      Effect.SetTimer 2 20 ∈ (FadeInEffect (fadeTicks s pre) inp).2 ↔
        ((fadeTicks s pre).loadingBarAnimationStarted = false ∧
          (fadeTicks s (pre ++ [inp])).loadingBarAnimationStarted = true)) ∧
    (∀ (pre mid : List (TickInput F)) (inp inp2 : TickInput F),
      Effect.SetTimer 2 20 ∈ (FadeInEffect (fadeTicks s pre) inp).2 →
        Effect.SetTimer 2 20 ∉ (FadeInEffect (fadeTicks s (pre ++ inp :: mid)) inp2).2) := by
  have flip : ∀ (pre : List (TickInput F)) (inp : TickInput F),
      Effect.SetTimer 2 20 ∈ (FadeInEffect (fadeTicks s pre) inp).2 ↔
        ((fadeTicks s pre).loadingBarAnimationStarted = false ∧
          (fadeTicks s (pre ++ [inp])).loadingBarAnimationStarted = true) := by
    intro pre inp
    rw [fade_setTimer, fadeTicks_snoc, fade_animStarted]
    constructor
    · rintro ⟨h1, h2, h3, h4⟩
      exact ⟨h4, by simp [h1, h2, h3]⟩
    · rintro ⟨h4, h⟩
      rw [h4] at h
      simp only [Bool.false_or, Bool.and_eq_true, decide_eq_true_eq] at h
      exact ⟨h.1.1, h.1.2, h.2, h4⟩
  have split2 : ∀ (pre mid : List (TickInput F)) (inp : TickInput F),
      pre ++ inp :: mid = (pre ++ [inp]) ++ mid := by
    intro pre mid inp; simp
  refine ⟨?_, ?_, ?_, ?_, flip, ?_⟩
  · intro pre inp
    rw [setsDelayStart_iff, ← fadeTicks_snoc]
    have h := delayStarted_iff s hd pre
    constructor
    · rintro ⟨h1, h2⟩
      refine ⟨h1, fun p x r e => ?_⟩
      by_contra hc
      have : (fadeTicks s pre).loadingBarDelayStarted = true :=
        h.2 ⟨p, x, r, e, by simpa using hc⟩
      rw [h2] at this; cases this
    · rintro ⟨h1, h2⟩
      refine ⟨h1, ?_⟩
      by_contra hc
      obtain ⟨p, x, r, e, hx⟩ := h.1 (by simpa using hc)
      rw [h2 p x r e] at hx; cases hx
  · intro pre mid inp inp2 h
    rw [setsDelayStart_iff, ← fadeTicks_snoc] at h
    have h1 : (fadeTicks s (pre ++ [inp])).loadingBarDelayStarted = true := by
      rw [fadeTicks_snoc, fade_delayStarted, ← fadeTicks_snoc, h.1]; simp
    have h2 := (delayStart_kept _ h1 mid).1
    rw [← fadeTicks_append, ← split2] at h2
    cases hc : setsDelayStart (fadeTicks s (pre ++ inp :: mid)) inp2 with
    | false => rfl
    | true =>
      have := ((setsDelayStart_iff _ _).1 hc).2
      rw [h2] at this; cases this
  · intro pre post inp h
    have h' := (setsDelayStart_iff _ _).1 h
    have h1 : (fadeTicks s (pre ++ [inp])).loadingBarDelayStarted = true := by
      rw [fadeTicks_snoc, fade_delayStarted, h'.1]; simp
    have h3 : (fadeTicks s (pre ++ [inp])).loadingBarDelayStart = inp.nowDelay := by
      rw [fadeTicks_snoc, fade_delayStart, if_pos h']
    have h2 := (delayStart_kept _ h1 post).2
    rw [← fadeTicks_append, ← split2] at h2
    rw [h2, h3]
  · intro pre inp h1 h2
    have hf := (flip pre inp).2 ⟨h1, h2⟩
    refine ⟨hf, ?_⟩
    obtain ⟨_, q2, q3, _⟩ := (fade_setTimer _ _).1 hf
    obtain ⟨p, x, r, e, r1, r2⟩ := delayStart_recorded s hd pre q2
    exact ⟨p, x, r, e, r1, r2, by rw [← r2]; exact q3⟩
  · intro pre mid inp inp2 h
    have h1 := ((flip pre inp).1 h).2
    have h2 := animStarted_kept _ h1 mid
    rw [← fadeTicks_append, ← split2] at h2
    intro hc
    have := ((flip _ inp2).1 hc).1
    rw [h2] at this; cases this

/-- C5, on the 20 ms run of the 1776 x 1000 image: the tick at 1180 ms (the
59th, the first on which `fadeProgress` is 1) assigns `loadingBarDelayStart`,
and the recorded value is still there after 100 further ticks. -/
theorem C5_loading_bar_delay_witness :
    wideLogin.loadingBarDelayStarted = false ∧
    setsDelayStart (fadeTicks wideLogin (demoRun 58)) (demoTick 1180) = true ∧
    (fadeTicks wideLogin (demoRun 58 ++ demoTick 1180 :: demoRun 100)).loadingBarDelayStart =
      (demoTick 1180).nowDelay :=
  ⟨rfl, by decide!,
    (C5_loading_bar_delay wideLogin rfl).2.2.1 (demoRun 58) (demoRun 100)
      (demoTick 1180) (by decide!)⟩

/-- C6. One call of `LoadingBarEffect` changes only `loadingBarProgress`,
which becomes `min(1.f, old + 0.01f)`.  If the new value is `>= 1` the call
stops timer 2 and posts a close request, otherwise it does neither; in both
cases it then calls the repaint routine, which hands a frame to
`UpdateLayeredWindow` whenever an image is loaded. -/
theorem C6_loading_bar_step {F : Type} [FloatArith F] (s : LoginWindow F) :
    (LoadingBarEffect s).1 =
      { s with loadingBarProgress := fmin (lit 1 1) (add s.loadingBarProgress (lit 1 100)) } ∧
    (LoadingBarEffect s).2 =
      (if ge (fmin (lit 1 1) (add s.loadingBarProgress (lit 1 100))) (lit 1 1)
        then [Effect.KillTimer 2, Effect.PostClose] else []) ++
      (if s.image.isSome then [Effect.UpdateLayeredWindow] else []) := by
  refine ⟨rfl, ?_⟩
  simp only [LoadingBarEffect, UpdateLayeredBitmap]
  cases s.image <;> rfl

/-- C6 as stated fails: on the call that brings `loadingBarProgress` of the
400 x 300 run to 1, the timer is stopped, the close request is posted, and the
window is repainted as well. -/
theorem C6_counterexample :
    (LoadingBarEffect (loadingTicks demoLogin 100)).1.loadingBarProgress = F32.one ∧
    (LoadingBarEffect (loadingTicks demoLogin 100)).2 =
      [Effect.KillTimer 2, Effect.PostClose, Effect.UpdateLayeredWindow] := by
  decide!

/-- C8. The drag handling does not keep the window at `w0 + (p1 - p0)`.  With
the window at `(200, 200)`, the button goes down with the cursor at screen point
`(300, 300)`; the mouse move with the cursor at `(320, 290)` puts the window at
`(220, 190)`, which is `w0 + (p1 - p0)`; but the next mouse move, with the cursor
at `(350, 330)`, puts it at `(230, 240)` and not at `(250, 230)`, and a mouse
move with the cursor still at `(320, 290)` puts it back at `(200, 200)`: the
points in `lParam` are relative to the window, which has moved. -/
theorem C8_drag_second_move :
    (mouseMoveAt (buttonDownAt ⟨demoLogin, demoHost⟩ ⟨300, 300⟩) ⟨320, 290⟩).host.windowPos
      = ⟨220, 190⟩ ∧
    (mouseMoveAt (mouseMoveAt (buttonDownAt ⟨demoLogin, demoHost⟩ ⟨300, 300⟩) ⟨320, 290⟩)
      ⟨350, 330⟩).host.windowPos = ⟨230, 240⟩ ∧
    (mouseMoveAt (mouseMoveAt (buttonDownAt ⟨demoLogin, demoHost⟩ ⟨300, 300⟩) ⟨320, 290⟩)
      ⟨350, 330⟩).host.windowPos ≠ ⟨200 + (350 - 300), 200 + (330 - 300)⟩ ∧
    (mouseMoveAt (mouseMoveAt (buttonDownAt ⟨demoLogin, demoHost⟩ ⟨300, 300⟩) ⟨320, 290⟩)
      ⟨320, 290⟩).host.windowPos = ⟨200, 200⟩ := by
  decide!

/-- C1. In binary32 arithmetic, after the `n` ticks `ins` of `FadeInEffect`
from a state with `fadeProgress = textRevealProgress = 0` (in particular a
freshly constructed `LoginWindow`): `fadeProgress` is below 1 for `n < 59` and
exactly 1 for `n >= 59`, `textRevealProgress` is below 1 for `n < 23` and
exactly 1 for `n >= 23` (the ticks at which `min(1, 0.017 n)` and
`min(1, 0.045 n)` reach 1); each value is within `10^(-6)` of `min(1, 0.017 n)`,
respectively `min(1, 0.045 n)`; both are non-decreasing along the run and stay
in `[0, 1]`; and in any state a further tick leaves a value that is already 1
unchanged. -/
theorem C1_fade_progress (s : LoginWindow F32) (hf : s.fadeProgress = lit 0 1)
    (ht : s.textRevealProgress = lit 0 1) (ins : List (TickInput F32)) :
    ((ins.length < 59 → F32.lt (fadeTicks s ins).fadeProgress F32.one = true) ∧
      (59 ≤ ins.length → (fadeTicks s ins).fadeProgress = F32.one)) ∧
    ((ins.length < 23 → F32.lt (fadeTicks s ins).textRevealProgress F32.one = true) ∧
      (23 ≤ ins.length → (fadeTicks s ins).textRevealProgress = F32.one)) ∧
    (|F32.val (fadeTicks s ins).fadeProgress - min 1 (17 / 1000 * (ins.length : ℚ))|
        ≤ 1 / 1000000 ∧
      |F32.val (fadeTicks s ins).textRevealProgress - min 1 (45 / 1000 * (ins.length : ℚ))|
        ≤ 1 / 1000000) ∧
    (∀ more : List (TickInput F32),
      F32.ge (fadeTicks s (ins ++ more)).fadeProgress (fadeTicks s ins).fadeProgress = true ∧
      F32.ge (fadeTicks s (ins ++ more)).textRevealProgress
        (fadeTicks s ins).textRevealProgress = true) ∧
    (F32.ge (fadeTicks s ins).fadeProgress (F32.fin 0) = true ∧
      F32.ge F32.one (fadeTicks s ins).fadeProgress = true ∧
      F32.ge (fadeTicks s ins).textRevealProgress (F32.fin 0) = true ∧
      F32.ge F32.one (fadeTicks s ins).textRevealProgress = true) ∧
    (∀ (st : LoginWindow F32) (inp : TickInput F32),
      (st.fadeProgress = F32.one → (FadeInEffect st inp).1.fadeProgress = F32.one) ∧
      (st.textRevealProgress = F32.one →
        (FadeInEffect st inp).1.textRevealProgress = F32.one)) := by
  have pf := clamped_profile (lit 17 1000) 59 fade_below fade_at59 fade_fix fade_mono fade_nonneg
  have pt := clamped_profile (lit 45 1000) 23 text_below text_at23 text_fix text_mono text_nonneg
  have ef : ∀ l : List (TickInput F32), (fadeTicks s l).fadeProgress =
      clampedSteps (lit 17 1000) (F32.fin 0) l.length := by
    intro l; rw [fadeTicks_fade, hf, lit_zero]
  have et : ∀ l : List (TickInput F32), (fadeTicks s l).textRevealProgress =
      clampedSteps (lit 45 1000) (F32.fin 0) l.length := by
    intro l; rw [fadeTicks_text, ht, lit_zero]
  refine ⟨?_, ?_, ⟨?_, ?_⟩, ?_, ?_, ?_⟩
  · rw [ef]; exact ⟨(pf _).1, (pf _).2.1⟩
  · rw [et]; exact ⟨(pt _).1, (pt _).2.1⟩
  · rw [ef]
    have := clamped_near (lit 17 1000) 59 17 ins.length fade_near (pf _).2.1
      (by intro k hk; omega) (by norm_num)
    simpa using this
  · rw [et]
    have := clamped_near (lit 45 1000) 23 45 ins.length text_near (pt _).2.1
      (by intro k hk; omega) (by norm_num)
    simpa using this
  · intro more
    rw [ef, ef, et, et, List.length_append]
    exact ⟨(pf _).2.2.2.2 _ (Nat.le_add_right _ _), (pt _).2.2.2.2 _ (Nat.le_add_right _ _)⟩
  · rw [ef, et]
    exact ⟨(pf _).2.2.1, (pf _).2.2.2.1, (pt _).2.2.1, (pt _).2.2.2.1⟩
  · intro st inp
    constructor
    · intro h; rw [fade_fade, h]; exact fade_fix
    · intro h; rw [fade_text, h]; exact text_fix

/-- C1 on a freshly constructed window: after 59 ticks of the 20 ms timer
`fadeProgress` is exactly 1. -/
theorem C1_fade_progress_witness :
    (LoginWindow.new ⟨0, 0⟩ ⟨0, 0⟩ : LoginWindow F32).fadeProgress = lit 0 1 ∧
    (LoginWindow.new ⟨0, 0⟩ ⟨0, 0⟩ : LoginWindow F32).textRevealProgress = lit 0 1 ∧
    59 ≤ (demoRun 59).length ∧
    (fadeTicks (LoginWindow.new ⟨0, 0⟩ ⟨0, 0⟩) (demoRun 59)).fadeProgress = F32.one :=
  ⟨rfl, rfl, by decide,
    (C1_fade_progress (LoginWindow.new ⟨0, 0⟩ ⟨0, 0⟩) rfl rfl (demoRun 59)).1.2 (by decide)⟩

/-- C1 as stated fails in binary32: after 6 ticks on a freshly constructed
window `fadeProgress` is `0.10200001299381256...`, which is neither the real
number `min(1, 0.017 * 6)`, nor the `float` nearest to it, nor the `float`
product `0.017f * 6`, nor six times the value of `0.017f`. -/
theorem C1_counterexample :
    F32.val (fadeTicks (LoginWindow.new ⟨0, 0⟩ ⟨0, 0⟩ : LoginWindow F32)
      (demoRun 6)).fadeProgress ≠ min 1 (17 / 1000 * 6) ∧
    (fadeTicks (LoginWindow.new ⟨0, 0⟩ ⟨0, 0⟩ : LoginWindow F32) (demoRun 6)).fadeProgress ≠
      F32.lit 102 1000 ∧
    (fadeTicks (LoginWindow.new ⟨0, 0⟩ ⟨0, 0⟩ : LoginWindow F32) (demoRun 6)).fadeProgress ≠
      F32.mul (F32.lit 17 1000) (F32.ofInt 6) ∧
    F32.val (fadeTicks (LoginWindow.new ⟨0, 0⟩ ⟨0, 0⟩ : LoginWindow F32)
      (demoRun 6)).fadeProgress ≠ F32.val (F32.lit 17 1000) * 6 := by
  have h : (fadeTicks (LoginWindow.new ⟨0, 0⟩ ⟨0, 0⟩ : LoginWindow F32)
      (demoRun 6)).fadeProgress = F32.fin 72789641600698452529545713818882304471203840 := by
    decide!
  have h17 : F32.lit 17 1000 = F32.fin 12131606047297744898313703700609010558304256 := by
    decide!
  refine ⟨?_, by decide!, by decide!, ?_⟩
  · rw [h, val_fin]; norm_num
  · rw [h, h17, val_fin, val_fin]; norm_num

/-- C2, with 101 in place of 100.  In binary32 arithmetic, starting from
`loadingBarProgress = 0`: the value is below 1 after every `k < 101` calls of
`LoadingBarEffect` and exactly 1 after the 101st; none of the first 100 calls
stops timer 2 or posts a close request, the 101st does both; and over any run
of timer messages (of timer 2, interleaved with any timer-1 ticks) dispatched
while the loading-bar animation is started and timer 2 is running, exactly one
close request is posted once 101 timer-2 messages have come, none before, and
timer 2 runs exactly until then. -/
theorem C2_loading_bar_completion (s : LoginWindow F32) (h0 : s.loadingBarProgress = lit 0 1) :
    (∀ k < 101, F32.lt (loadingTicks s k).loadingBarProgress F32.one = true) ∧
    (loadingTicks s 101).loadingBarProgress = F32.one ∧
    (∀ k < 100, Effect.PostClose ∉ (LoadingBarEffect (loadingTicks s k)).2 ∧
      Effect.KillTimer 2 ∉ (LoadingBarEffect (loadingTicks s k)).2) ∧
    (Effect.PostClose ∈ (LoadingBarEffect (loadingTicks s 100)).2 ∧
      Effect.KillTimer 2 ∈ (LoadingBarEffect (loadingTicks s 100)).2) ∧
    (∀ (host : Host) (ms : List (Msg F32)),
      s.loadingBarAnimationStarted = true → host.timers 2 = true →
      (∀ m ∈ ms, isTimerMsg m = true) →
        (runMessages ⟨s, host⟩ ms).host.closeRequests =
          host.closeRequests + (if 101 ≤ ms.countP isTimer2 then 1 else 0) ∧
        (runMessages ⟨s, host⟩ ms).host.timers 2 = decide (ms.countP isTimer2 < 101)) := by
  have e : ∀ k, (loadingTicks s k).loadingBarProgress =
      clampedSteps (lit 1 100) (F32.fin 0) k := by
    intro k; rw [loadingTicks_loading, h0, lit_zero]
  have e' : ∀ k, (LoadingBarEffect (loadingTicks s k)).1.loadingBarProgress =
      clampedSteps (lit 1 100) (F32.fin 0) (k + 1) := fun k => e (k + 1)
  refine ⟨fun k hk => by rw [e]; exact loading_below k hk, by rw [e]; exact loading_at101,
    ?_, ?_, ?_⟩
  · intro k hk
    have hb : ge (LoadingBarEffect (loadingTicks s k)).1.loadingBarProgress (lit 1 1 : F32)
        = false := by
      rw [e', lit_one]
      exact F32.not_ge_of_lt _ _ (loading_below (k + 1) (by omega))
    rw [loading_effects, hb]
    simp only [Bool.false_eq_true, if_false, List.nil_append, UpdateLayeredBitmap]
    constructor <;> split <;> simp
  · have hb : ge (LoadingBarEffect (loadingTicks s 100)).1.loadingBarProgress (lit 1 1 : F32)
        = true := by
      rw [e', loading_at101, lit_one]; decide!
    rw [loading_effects, if_pos hb]
    simp
  · intro host ms ha ht hm
    obtain ⟨_, i2, i3⟩ := loading_run s host ms h0 ha ht hm
    by_cases hc : List.countP isTimer2 ms < 101
    · obtain ⟨_, j2, j3⟩ := i2 hc
      rw [j2, j3, if_neg (by omega)]
      simp [hc]
    · obtain ⟨j2, j3⟩ := i3 (by omega)
      rw [j2, j3, if_pos (by omega)]
      simp [hc]

/-- C2 on the 400 x 300 window: the 101st call of `LoadingBarEffect` brings
`loadingBarProgress` to exactly 1. -/
theorem C2_loading_bar_completion_witness :
    demoLogin.loadingBarProgress = lit 0 1 ∧
    (loadingTicks demoLogin 101).loadingBarProgress = F32.one :=
  ⟨by decide!, (C2_loading_bar_completion demoLogin (by decide!)).2.1⟩

/-- C2 as stated fails in binary32: after 100 calls `loadingBarProgress` is
`16777205 / 2^24 = 0.99999934...`, not 1, and the 100th call posts no close
request and does not stop the timer. -/
theorem C2_counterexample :
    (loadingTicks demoLogin 100).loadingBarProgress = F32.fin (16777205 * 2 ^ 125) ∧
    (loadingTicks demoLogin 100).loadingBarProgress ≠ F32.one ∧
    (LoadingBarEffect (loadingTicks demoLogin 99)).2 = [Effect.UpdateLayeredWindow] := by
  decide!

/-- C7. In phase `ToRight` (with an image loaded) `UpdateImageMovement` eases the
centre toward `appWidth - scaledImageWidth * 1.3f`, where `scaledImageWidth` is
`static_cast<int>(imageWidth * scale)`.  For image width 400, scale 0.25 and
`appWidth` 800 the scaled width is 100 and the target is 670, both in binary32
(where `100 * 1.3f` rounds to exactly 130) and in exact arithmetic. -/
theorem C7_toRight_target :
    (∀ (F : Type) [FloatArith F] (s : LoginWindow F) (img : Bitmap) (now : TimePoint) (tw : F),
      s.image = some img → s.movementPhase = ToRight →
      (UpdateImageMovement s now tw).currentImageCenterX =
        Lerp s.currentImageCenterX
          (sub (ofInt s.appWidth)
            (mul (ofInt (toInt (mul (ofInt (img.width : Int)) s.scale))) (lit 13 10)))
          (lit 1 10)) ∧
    (∀ (s : LoginWindow F32) (img : Bitmap),
      img.width = 400 → s.scale = lit 25 100 → s.appWidth = 800 →
      scaledImageWidth s img = 100 ∧ toRightTarget s img = F32.ofInt 670 ∧
      F32.val (toRightTarget s img) = 670) ∧
    (∀ (s : LoginWindow ℚ) (img : Bitmap),
      img.width = 400 → s.scale = 25 / 100 → s.appWidth = 800 →
      scaledImageWidth s img = 100 ∧ toRightTarget s img = 670) := by
  refine ⟨?_, ?_, ?_⟩
  · intro F _ s img now tw hi hp
    rw [uim_toRight s img hi hp]
    split <;> rfl
  · intro s img hw hs ha
    have e1 : scaledImageWidth s img = 100 := by
      unfold scaledImageWidth
      rw [hw, hs]
      decide!
    have e2 : toRightTarget s img = F32.ofInt 670 := by
      unfold toRightTarget
      rw [e1, ha]
      decide!
    have e3 : F32.ofInt 670 = F32.fin (670 * 2 ^ 149) := by decide!
    refine ⟨e1, e2, ?_⟩
    rw [e2, e3, val_fin]; norm_num
  · intro s img hw hs ha
    have e1 : scaledImageWidth s img = 100 := by
      show truncQ ((((img.width : ℕ) : ℤ) : ℚ) * s.scale) = 100
      rw [hw, hs]
      have : ((((400 : ℕ) : ℤ) : ℚ) * (25 / 100)) = ((100 : ℤ) : ℚ) := by norm_num
      rw [this]; simp [truncQ]
    refine ⟨e1, ?_⟩
    show (s.appWidth : ℚ) - ((scaledImageWidth s img : ℤ) : ℚ) *
      (((13 : ℕ) : ℚ) / ((10 : ℕ) : ℚ)) = 670
    rw [e1, ha]; norm_num

/-- C7 on the window object of `WinMain` for a 400 x 300 image: the first tick
moves the centre from 50 toward the target 670. -/
theorem C7_toRight_target_witness :
    demoLogin.image = some ⟨400, 300⟩ ∧ demoLogin.movementPhase = ToRight ∧
    (UpdateImageMovement demoLogin 0 (F32.ofInt 300)).currentImageCenterX =
      Lerp (F32.ofInt 50) (F32.ofInt 670) (lit 1 10) :=
  ⟨by decide!, by decide!,
    (C7_toRight_target.1 F32 demoLogin ⟨400, 300⟩ 0 (F32.ofInt 300) (by decide!) (by decide!)).trans
      (by decide!)⟩

/-- C9. In exact arithmetic, in phase `ToRight` with an image loaded, with
target `T = appWidth - scaledImageWidth * 1.3` and start `x0`:
(1) one call of `UpdateImageMovement` replaces the centre `x` by
`x + 0.1 * (T - x)`;
(2) as long as `0.9^m * |x0 - T| >= 2` for every tick `m = 1..n`, the phase after
`n` ticks is still `ToRight`, the centre is `T + 0.9^n * (x0 - T)`, its distance
to `T` is `0.9^n * |x0 - T|`, and it lies on the same side of `T` as `x0` (no
overshoot);
(3) the first tick `n + 1` with `0.9^(n+1) * |x0 - T| < 2` changes the phase to
`WaitRight`;
(4) such a tick exists for every `x0`: the `ToRight` phase ends after finitely
many ticks, exactly at the first `N >= 1` with `0.9^N * |x0 - T| < 2`;
(5) for image width 400 (`x0 = 50`, `T = 670`) that tick is tick 55. -/
theorem C9_toRight_easing (s : LoginWindow ℚ) (img : Bitmap) (hi : s.image = some img)
    (hp : s.movementPhase = ToRight) :
    (∀ (now : TimePoint) (tw : ℚ),
      toRightTarget s img =
        (s.appWidth : ℚ) - (truncQ ((img.width : ℚ) * s.scale) : ℚ) * (13 / 10) ∧
      (UpdateImageMovement s now tw).currentImageCenterX =
        s.currentImageCenterX + 1 / 10 * (toRightTarget s img - s.currentImageCenterX)) ∧
    (∀ ins : List (TimePoint × ℚ),
      (∀ m, 1 ≤ m → m ≤ ins.length →
        2 ≤ (9 / 10 : ℚ) ^ m * |s.currentImageCenterX - toRightTarget s img|) →
      (moveTicks s ins).movementPhase = ToRight ∧
      (moveTicks s ins).currentImageCenterX = toRightTarget s img +
        (9 / 10) ^ ins.length * (s.currentImageCenterX - toRightTarget s img) ∧
      |(moveTicks s ins).currentImageCenterX - toRightTarget s img| =
        (9 / 10) ^ ins.length * |s.currentImageCenterX - toRightTarget s img| ∧
      0 ≤ ((moveTicks s ins).currentImageCenterX - toRightTarget s img) *
        (s.currentImageCenterX - toRightTarget s img)) ∧
    (∀ (ins : List (TimePoint × ℚ)) (inp : TimePoint × ℚ),
      (∀ m, 1 ≤ m → m ≤ ins.length →
        2 ≤ (9 / 10 : ℚ) ^ m * |s.currentImageCenterX - toRightTarget s img|) →
      (9 / 10 : ℚ) ^ (ins.length + 1) * |s.currentImageCenterX - toRightTarget s img| < 2 →
      (moveTicks s (ins ++ [inp])).movementPhase = WaitRight ∧
      |(moveTicks s (ins ++ [inp])).currentImageCenterX - toRightTarget s img| =
        (9 / 10) ^ (ins.length + 1) * |s.currentImageCenterX - toRightTarget s img| ∧
      0 ≤ ((moveTicks s (ins ++ [inp])).currentImageCenterX - toRightTarget s img) *
        (s.currentImageCenterX - toRightTarget s img)) ∧
    (∃ N, 1 ≤ N ∧
      (9 / 10 : ℚ) ^ N * |s.currentImageCenterX - toRightTarget s img| < 2 ∧
      (∀ m, 1 ≤ m → m < N →
        2 ≤ (9 / 10 : ℚ) ^ m * |s.currentImageCenterX - toRightTarget s img|) ∧
      ∀ ins : List (TimePoint × ℚ),
        (ins.length < N → (moveTicks s ins).movementPhase = ToRight) ∧
        (ins.length = N → (moveTicks s ins).movementPhase = WaitRight)) ∧
    (∀ (im : Bitmap) (d w : POINT) (ins : List (TimePoint × ℚ)), im.width = 400 →
      (WinMain.login im d w : LoginWindow ℚ).currentImageCenterX = 50 ∧
      toRightTarget (WinMain.login im d w : LoginWindow ℚ) im = 670 ∧
      (ins.length < 55 →
        (moveTicks (WinMain.login im d w : LoginWindow ℚ) ins).movementPhase = ToRight) ∧
      (ins.length = 55 →
        (moveTicks (WinMain.login im d w : LoginWindow ℚ) ins).movementPhase
          = WaitRight)) := by
  have closed : ∀ (n : Nat) (x : ℚ),
      x = toRightTarget s img + (9 / 10) ^ n * (s.currentImageCenterX - toRightTarget s img) →
      |x - toRightTarget s img| =
        (9 / 10) ^ n * |s.currentImageCenterX - toRightTarget s img| ∧
      0 ≤ (x - toRightTarget s img) * (s.currentImageCenterX - toRightTarget s img) := by
    intro n x hx
    have e : x - toRightTarget s img =
        (9 / 10) ^ n * (s.currentImageCenterX - toRightTarget s img) := by rw [hx]; ring
    rw [e, abs_pow_mul]
    refine ⟨rfl, ?_⟩
    have h1 : (0 : ℚ) ≤ (9 / 10) ^ n := by positivity
    have h2 := mul_self_nonneg (s.currentImageCenterX - toRightTarget s img)
    calc (0 : ℚ) ≤ (9 / 10) ^ n * ((s.currentImageCenterX - toRightTarget s img) *
          (s.currentImageCenterX - toRightTarget s img)) := mul_nonneg h1 h2
      _ = _ := by ring
  have leaveAt : ∀ (t : LoginWindow ℚ) (im : Bitmap), t.image = some im →
      t.movementPhase = ToRight → ∀ (N : Nat), 1 ≤ N →
      (9 / 10 : ℚ) ^ N * |t.currentImageCenterX - toRightTarget t im| < 2 →
      (∀ m, 1 ≤ m → m < N →
        2 ≤ (9 / 10 : ℚ) ^ m * |t.currentImageCenterX - toRightTarget t im|) →
      ∀ ins : List (TimePoint × ℚ),
        (ins.length < N → (moveTicks t ins).movementPhase = ToRight) ∧
        (ins.length = N → (moveTicks t ins).movementPhase = WaitRight) := by
    intro t im ti tp N hN hnear hfar ins
    constructor
    · intro hl
      exact (toRight_run t im ti tp ins (fun m h1 h2 => hfar m h1 (by omega))).1
    · intro hl
      rcases List.eq_nil_or_concat ins with h | ⟨l, a, h⟩
      · subst h; simp at hl; omega
      · rw [List.concat_eq_append] at h
        subst h
        have hlen : l.length + 1 = N := by simpa using hl
        exact (toRight_leave t im ti tp l a (fun m h1 h2 => hfar m h1 (by omega))
          (by rw [hlen]; exact hnear)).1
  refine ⟨?_, ?_, ?_, ?_, ?_⟩
  · intro now tw
    refine ⟨toRightTargetQ s img, ?_⟩
    rw [(stepQ_toRight s img hi hp now tw).1]; ring
  · intro ins hfar
    obtain ⟨h1, h2, _, _⟩ := toRight_run s img hi hp ins hfar
    exact ⟨h1, h2, (closed _ _ h2).1, (closed _ _ h2).2⟩
  · intro ins inp hfar hnear
    obtain ⟨h1, h2, _⟩ := toRight_leave s img hi hp ins inp hfar hnear
    exact ⟨h1, (closed _ _ h2).1, (closed _ _ h2).2⟩
  · have hex := exists_near |s.currentImageCenterX - toRightTarget s img| (abs_nonneg _)
    classical
    refine ⟨Nat.find hex, (Nat.find_spec hex).1, (Nat.find_spec hex).2, ?_, ?_⟩
    · intro m h1 h2
      have := Nat.find_min hex h2
      by_contra hc
      exact this ⟨h1, not_le.1 hc⟩
    · apply leaveAt s img hi hp _ (Nat.find_spec hex).1 (Nat.find_spec hex).2
      intro m h1 h2
      have := Nat.find_min hex h2
      by_contra hc
      exact this ⟨h1, not_le.1 hc⟩
  · intro im d w ins hw
    obtain ⟨f1, f2, _, f4, f5⟩ := loginQ_facts im hw d w
    refine ⟨f4, f5, ?_⟩
    apply leaveAt _ _ f1 f2 55 (by norm_num)
    · rw [f4, f5]; exact near55
    · intro m _ h2
      rw [f4, f5]; exact far54 m (by omega)

/-- C9 on the window object of `WinMain` for a 400 x 300 image, in exact
arithmetic: the phase is `ToRight` after 54 ticks and `WaitRight` after 55. -/
theorem C9_toRight_easing_witness :
    (WinMain.login ⟨400, 300⟩ ⟨0, 0⟩ ⟨0, 0⟩ : LoginWindow ℚ).image = some ⟨400, 300⟩ ∧
    (WinMain.login ⟨400, 300⟩ ⟨0, 0⟩ ⟨0, 0⟩ : LoginWindow ℚ).movementPhase = ToRight ∧
    (moveTicks (WinMain.login ⟨400, 300⟩ ⟨0, 0⟩ ⟨0, 0⟩ : LoginWindow ℚ)
      (List.replicate 54 (0, 300))).movementPhase = ToRight ∧
    (moveTicks (WinMain.login ⟨400, 300⟩ ⟨0, 0⟩ ⟨0, 0⟩ : LoginWindow ℚ)
      (List.replicate 55 (0, 300))).movementPhase = WaitRight :=
  ⟨(login_fields _ _ _).1, (login_fields _ _ _).2.1,
    ((C9_toRight_easing (WinMain.login ⟨400, 300⟩ ⟨0, 0⟩ ⟨0, 0⟩) ⟨400, 300⟩
      (login_fields _ _ _).1 (login_fields _ _ _).2.1).2.2.2.2
      ⟨400, 300⟩ ⟨0, 0⟩ ⟨0, 0⟩ (List.replicate 54 (0, 300)) rfl).2.2.1 (by simp),
    ((C9_toRight_easing (WinMain.login ⟨400, 300⟩ ⟨0, 0⟩ ⟨0, 0⟩) ⟨400, 300⟩
      (login_fields _ _ _).1 (login_fields _ _ _).2.1).2.2.2.2
      ⟨400, 300⟩ ⟨0, 0⟩ ⟨0, 0⟩ (List.replicate 55 (0, 300)) rfl).2.2.2 (by simp)⟩

/-- C10. In exact arithmetic the `ToCenter` target
`(appWidth - textWidth) / 2 + textWidth / 2` is `appWidth / 2` for every
measured text width (400 for the constructor's `appWidth = 800`); so in phase
`ToCenter`, with an image loaded, the centre after `n` ticks is
`appWidth / 2 + 0.9^n * (x0 - appWidth / 2)`, the phase stays `ToCenter`, and two
runs of the same length end at the same centre whatever text widths (and clock
readings) they were given. -/
theorem C10_toCenter_target :
    (∀ (s : LoginWindow ℚ) (tw : ℚ), toCenterTarget s tw = (s.appWidth : ℚ) / 2) ∧
    (∀ (d w : POINT) (tw : ℚ), toCenterTarget (LoginWindow.new d w : LoginWindow ℚ) tw = 400) ∧
    (∀ (s : LoginWindow ℚ) (img : Bitmap), s.image = some img → s.movementPhase = ToCenter →
      ∀ ins : List (TimePoint × ℚ),
        (moveTicks s ins).movementPhase = ToCenter ∧
        (moveTicks s ins).currentImageCenterX = (s.appWidth : ℚ) / 2 +
          (9 / 10) ^ ins.length * (s.currentImageCenterX - (s.appWidth : ℚ) / 2)) ∧
    (∀ (s : LoginWindow ℚ) (img : Bitmap), s.image = some img → s.movementPhase = ToCenter →
      ∀ ins ins' : List (TimePoint × ℚ), ins.length = ins'.length →
        (moveTicks s ins).currentImageCenterX = (moveTicks s ins').currentImageCenterX) := by
  have run : ∀ (s : LoginWindow ℚ) (img : Bitmap), s.image = some img →
      s.movementPhase = ToCenter → ∀ ins : List (TimePoint × ℚ),
        (moveTicks s ins).movementPhase = ToCenter ∧
        (moveTicks s ins).currentImageCenterX = (s.appWidth : ℚ) / 2 +
          (9 / 10) ^ ins.length * (s.currentImageCenterX - (s.appWidth : ℚ) / 2) ∧
        (moveTicks s ins).image = some img ∧ (moveTicks s ins).appWidth = s.appWidth := by
    intro s img hi hp ins
    induction ins using List.reverseRecOn with
    | nil => exact ⟨hp, by simp [moveTicks], hi, rfl⟩
    | append_singleton l a ih =>
      obtain ⟨i1, i2, i3, i4⟩ := ih
      rw [moveTicks_snoc, uim_toCenter _ img i3 i1]
      refine ⟨i1, ?_, i3, i4⟩
      show Lerp (moveTicks s l).currentImageCenterX (toCenterTarget (moveTicks s l) a.2)
        (lit 1 10) = _
      rw [lerpQ, toCenterTargetQ, i2, i4, List.length_append, List.length_singleton, pow_succ]
      ring
  refine ⟨toCenterTargetQ, ?_, ?_, ?_⟩
  · intro d w tw
    have ha : (LoginWindow.new d w : LoginWindow ℚ).appWidth = 800 := rfl
    rw [toCenterTargetQ, ha]
    norm_num
  · intro s img hi hp ins
    exact ⟨(run s img hi hp ins).1, (run s img hi hp ins).2.1⟩
  · intro s img hi hp ins ins' hl
    rw [(run s img hi hp ins).2.1, (run s img hi hp ins').2.1, hl]

/-- C10 on a window in phase `ToCenter` at centre 670 with a 400 x 300 image, in
exact arithmetic: two ticks with different text widths bring the centre to
`400 + 0.81 * 270`. -/
theorem C10_toCenter_target_witness :
    centredDemo.image = some ⟨400, 300⟩ ∧ centredDemo.movementPhase = ToCenter ∧
    (moveTicks centredDemo [(0, 300), (20, 17)]).currentImageCenterX =
      400 + (9 / 10) ^ 2 * (670 - 400) :=
  ⟨rfl, rfl,
    ((C10_toCenter_target.2.2.1 centredDemo ⟨400, 300⟩ rfl rfl [(0, 300), (20, 17)]).2).trans
      (by
        have ha : centredDemo.appWidth = 800 := rfl
        have hc : centredDemo.currentImageCenterX = 670 := rfl
        rw [ha, hc]
        norm_num)⟩

end Claims



end Loader
